import Mathlib

/-!
# `_spawnvpU` (MsvcLibX `spawn.c`): UTF-8 front end of `_wspawnvp`

Shallow embedding of `src/C/MsvcLibX/src/spawn.c`.

* Pointers are natural numbers, `0` is `NULL`.
* Bytes and UTF-16 code units are natural numbers.
* A C string argument is given by the bytes that precede its terminator;
  `cstrMem` is the memory the `char *` points to (bytes, then the `NUL`).
* `argv` is the list of its non-`NULL` entries; the `NULL` sentinel is the end
  of the list, so `argv[i]` is `NULL` exactly when `i = argv.length`.
* The heap is a list of live block addresses plus the wide-character content
  that was written to each buffer. `malloc` may fail at any call.
* The `WCHAR **` array is a list of slots; a slot is `none` until it is
  written. Reading outside the array or reading an unwritten slot is a `Fault`,
  as is freeing a block that is not live.
* Every call of a collaborator and every array access is appended to
  `World.trace`, in program order.
* The `DEBUG_CODE` block at the top of the function only prints and is left out.
* `int` arithmetic is exact: argument counts and lengths are taken to be below
  `2^31 - 1`, as they are for anything a Windows command line can hold.
-/

namespace SpawnU

/-! ## Data model -/

/-- Something the C program must never do. -/
inductive Fault where
  | outOfBounds
  | uninitRead
  | invalidFree
  | danglingRead
  deriving DecidableEq, Repr

/-- One observable step of a call. -/
inductive Event where
  | pathConv (lpMultiByteStr : List Nat) (cchWideChar : Nat) (n : Nat)
  | malloc (size : Nat) (p : Nat)
  | free (p : Nat)
  | write (i : Nat) (p : Nat)
  | read (i : Nat)
  | argConv (lpMultiByteStr : List Nat) (cbMultiByte : Nat) (lpWideCharStr : Nat)
      (cchWideChar : Nat) (n : Nat)
  | spawn (iMode : Int) (wszCommand : List Nat) (wszArgv : List (Option (List Nat)))
  deriving DecidableEq, Repr

/-- Process state seen by one call. -/
structure World where
  /-- Addresses of the heap blocks that are allocated and not yet freed. -/
  live : List Nat
  /-- Wide-character content of heap buffers, most recent write first. -/
  store : List (Nat × List Nat)
  /-- Number of `malloc` calls made so far. -/
  mallocCalls : Nat
  errno : Int
  /-- Value of `GetLastError()`. -/
  lastError : Nat
  trace : List Event
  deriving DecidableEq, Repr

/-- Result of a multi-byte to wide-character conversion: the return value `n`
(`0` is failure), what was written to `lpWideCharStr`, and the last-error code
left behind. -/
structure ConvResult where
  n : Nat
  out : List Nat
  lastError : Nat
  deriving DecidableEq, Repr

/-- The collaborators of `_spawnvpU` and the platform constants it uses, none of
which is defined in `spawn.c`. -/
structure Env where
  /-- `PATH_MAX`, the capacity of `wszCommand`. -/
  PATH_MAX : Nat
  /-- `sizeof(WCHAR *)`. -/
  sizeofPtr : Nat
  /-- `MultiByteToWidePath(CodePage, lpMultiByteStr, lpWideCharStr, cchWideChar)`. -/
  MultiByteToWidePath : Nat → List Nat → Nat → ConvResult
  /-- `MultiByteToWideChar(CodePage, dwFlags, lpMultiByteStr, cbMultiByte,
  lpWideCharStr, cchWideChar)`. -/
  MultiByteToWideChar : Nat → Nat → List Nat → Nat → Nat → ConvResult
  /-- `Win32ErrorToErrno()`, as a function of `GetLastError()`. -/
  Win32ErrorToErrno : Nat → Int
  /-- Whether the `k`-th `malloc` call (counted from 0) succeeds. -/
  mallocOk : Nat → Bool
  /-- `_wspawnvp(mode, cmdname, argv)`; `argv` is what the primitive reads: the
  strings up to and including the `NULL` sentinel (`none`). -/
  _wspawnvp : Int → List Nat → List (Option (List Nat)) → Int

def CP_UTF8 : Nat := 65001

def ENOMEM : Int := 12

/-- `sizeof(WCHAR)`. -/
def sizeofWCHAR : Nat := 2

/-- Memory a `char *` to the string `s` points to. -/
def cstrMem (s : List Nat) : List Nat := s ++ [0]

/-- `lstrlen`: number of bytes before the first `NUL`. -/
def lstrlen (mem : List Nat) : Nat := (mem.takeWhile (fun b => b != 0)).length

def World.log (w : World) (e : Event) : World := { w with trace := w.trace ++ [e] }

/-! ## The C runtime heap -/

/-- An address that is neither `NULL` nor the address of a live block. -/
def freshPtr (live : List Nat) : Nat := live.foldr max 0 + 1

/-- `malloc(size)`: a fresh block, or `NULL` with `errno = ENOMEM`. -/
def malloc (env : Env) (size : Nat) (w : World) : Nat × World :=
  if env.mallocOk w.mallocCalls then
    let p := freshPtr w.live
    (p, { w with live := p :: w.live, mallocCalls := w.mallocCalls + 1,
                 trace := w.trace ++ [Event.malloc size p] })
  else
    (0, { w with errno := ENOMEM, mallocCalls := w.mallocCalls + 1,
                 trace := w.trace ++ [Event.malloc size 0] })

/-- `free(p)`: no effect on `NULL`, a fault on a block that is not live. -/
def free (p : Nat) (w : World) : Except Fault World :=
  if p = 0 then .ok (w.log (Event.free 0))
  else if p ∈ w.live then
    .ok { w with live := w.live.erase p, trace := w.trace ++ [Event.free p] }
  else .error Fault.invalidFree

/-- `wszArgv[i]` as an rvalue. -/
def readSlot (slots : List (Option Nat)) (i : Nat) (w : World) : Except Fault (Nat × World) :=
  match slots[i]? with
  | none => .error Fault.outOfBounds
  | some none => .error Fault.uninitRead
  | some (some p) => .ok (p, w.log (Event.read i))

/-- `wszArgv[i] = p`. -/
def writeSlot (slots : List (Option Nat)) (i : Nat) (p : Nat) (w : World) :
    Except Fault (List (Option Nat) × World) :=
  if i < slots.length then .ok (slots.set i (some p), w.log (Event.write i p))
  else .error Fault.outOfBounds

/-- Content of the wide string at `p`. -/
def deref (w : World) (p : Nat) : Except Fault (List Nat) :=
  if p ∈ w.live then
    match w.store.lookup p with
    | some d => .ok d
    | none => .error Fault.uninitRead
  else .error Fault.danglingRead

/-- What `_wspawnvp` reads through its `argv` parameter: every string up to
the first `NULL`, and that `NULL`. -/
def argvView (w : World) : List (Option Nat) → Except Fault (List (Option (List Nat)))
  | [] => .error Fault.outOfBounds
  | none :: _ => .error Fault.uninitRead
  | some p :: rest =>
    if p = 0 then .ok [none]
    else do
      let d ← deref w p
      let ds ← argvView w rest
      pure (some d :: ds)

/-! ## `_spawnvpU` -/

/-- `for (nArgs=0; argv[nArgs]; nArgs++) ;` with the list being `argv + nArgs`. -/
def countArgs : List (List Nat) → Nat → Nat
  | [], nArgs => nArgs
  | _ :: rest, nArgs => countArgs rest (nArgs + 1)

/-- `while (iArg) free(wszArgv[--iArg]);` -/
def freeBelow (slots : List (Option Nat)) : Nat → World → Except Fault World
  | 0, w => .ok w
  | iArg + 1, w => do
    let (p, w) ← readSlot slots iArg w
    let w ← free p w
    freeBelow slots iArg w

/-- `while (iArg >= 0) free(wszArgv[iArg--]);` for `iArg >= 0` on entry. -/
def freeFromDown (slots : List (Option Nat)) : Nat → World → Except Fault World
  | 0, w => do
    let (p, w) ← readSlot slots 0 w
    free p w
  | iArg + 1, w => do
    let (p, w) ← readSlot slots (iArg + 1) w
    let w ← free p w
    freeFromDown slots iArg w

/-- How the conversion loop is left. -/
inductive LoopExit where
  /-- One of the two `return -1` inside the loop. -/
  | returned (ret : Int) (w : World)
  /-- The loop condition `argv[iArg]` became false. -/
  | finished (iArg : Nat) (slots : List (Option Nat)) (w : World)
  deriving DecidableEq, Repr

/-- `int iArgBufSize = lstrlen(argv[iArg]) + 1;` -/
def iArgBufSize (arg : List Nat) : Nat := lstrlen (cstrMem arg) + 1

/-- The call `MultiByteToWideChar(CP_UTF8, 0, argv[iArg], iArgBufSize,
wszArgv[iArg], iArgBufSize)`. -/
def convertArg (env : Env) (arg : List Nat) : ConvResult :=
  env.MultiByteToWideChar CP_UTF8 0 (cstrMem arg) (iArgBufSize arg) (iArgBufSize arg)

/-- `for (iArg=0; argv[iArg]; iArg++) { ... }` with the list being
`argv + iArg`; `wszArgv` is the address of the array, `slots` its content. -/
def convertArgs (env : Env) (wszArgv : Nat) :
    List (List Nat) → Nat → List (Option Nat) → World → Except Fault LoopExit
  | [], iArg, slots, w => .ok (LoopExit.finished iArg slots w)
  | arg :: rest, iArg, slots, w => do
    let (p, w) := malloc env (sizeofWCHAR * iArgBufSize arg) w
    let (slots, w) ← writeSlot slots iArg p w
    let (q, w) ← readSlot slots iArg w
    if q = 0 then
      let w ← freeBelow slots iArg w
      let w ← free wszArgv w
      pure (LoopExit.returned (-1) w)
    else
      let (buf, w) ← readSlot slots iArg w
      let r := convertArg env arg
      let w := { w with store := (buf, r.out) :: w.store, lastError := r.lastError,
                        trace := w.trace ++ [Event.argConv (cstrMem arg) (iArgBufSize arg) buf
                                               (iArgBufSize arg) r.n] }
      if r.n = 0 then
        let w := { w with errno := env.Win32ErrorToErrno w.lastError }
        let w ← freeFromDown slots iArg w
        let w ← free wszArgv w
        pure (LoopExit.returned (-1) w)
      else
        convertArgs env wszArgv rest (iArg + 1) slots w

/-- The call `MultiByteToWidePath(CP_UTF8, pszCommand, wszCommand,
COUNTOF(wszCommand))`. -/
def convertPath (env : Env) (pszCommand : List Nat) : ConvResult :=
  env.MultiByteToWidePath CP_UTF8 (cstrMem pszCommand) env.PATH_MAX

/-- `intptr_t _spawnvpU(int iMode, const char *pszCommand, char *const *argv)`. -/
def _spawnvpU (env : Env) (iMode : Int) (pszCommand : List Nat) (argv : List (List Nat))
    (w : World) : Except Fault (Int × World) :=
  let r := convertPath env pszCommand
  let w := { w with lastError := r.lastError,
                    trace := w.trace ++ [Event.pathConv (cstrMem pszCommand) env.PATH_MAX r.n] }
  if r.n = 0 then
    .ok (-1, { w with errno := env.Win32ErrorToErrno w.lastError })
  else
    let wszCommand := r.out
    let nArgs := countArgs argv 0
    let (wszArgv, w) := malloc env ((nArgs + 1) * env.sizeofPtr) w
    if wszArgv = 0 then .ok (-1, w)
    else do
      let slots : List (Option Nat) := List.replicate (nArgs + 1) none
      match ← convertArgs env wszArgv argv 0 slots w with
      | LoopExit.returned ret w => pure (ret, w)
      | LoopExit.finished _ slots w =>
        let (slots, w) ← writeSlot slots nArgs 0 w
        let args ← argvView w slots
        let iRet := env._wspawnvp iMode wszCommand args
        let w := w.log (Event.spawn iMode wszCommand args)
        let w ← freeBelow slots nArgs w
        let w ← free wszArgv w
        pure (iRet, w)

/-! ## Reference conversion from UTF-8 to UTF-16

`MultiByteToWideChar` is a Win32 primitive; `spawn.c` only calls it. The
definitions below give the conversion the properties of the argument buffers
are stated against. -/

/-- Modelled from the spec: the UTF-8 encoding of a code point (the spec names
the encoding only; the byte layout is that of RFC 3629). -/
def utf8Encode (c : Nat) : List Nat :=
  if c < 0x80 then [c]
  else if c < 0x800 then [0xC0 + c / 0x40, 0x80 + c % 0x40]
  else if c < 0x10000 then [0xE0 + c / 0x1000, 0x80 + c / 0x40 % 0x40, 0x80 + c % 0x40]
  else [0xF0 + c / 0x40000, 0x80 + c / 0x1000 % 0x40, 0x80 + c / 0x40 % 0x40, 0x80 + c % 0x40]

/-- Modelled from the spec: the UTF-16 encoding of a code point (one unit in
the basic plane, a surrogate pair above it). -/
def utf16Encode (c : Nat) : List Nat :=
  if c < 0x10000 then [c]
  else [0xD800 + (c - 0x10000) / 0x400, 0xDC00 + (c - 0x10000) % 0x400]

/-- Modelled from the spec: a Unicode scalar value, that is a code point that
is not a surrogate. -/
def isScalarValue (c : Nat) : Bool := c < 0xD800 || (0xE000 ≤ c && c < 0x110000)

/-- A UTF-8 continuation byte `10xxxxxx`. -/
def isContinuation (b : Nat) : Bool := 0x80 ≤ b && b < 0xC0

/-- Modelled from the spec: strict UTF-8 decoding, one byte at a time. `k` is
the number of continuation bytes still expected, `acc` the bits gathered so
far and `lo` the least code point the current sequence may encode. Overlong
forms, surrogates, values above `0x10FFFF` and truncated sequences are
rejected. -/
def utf8DecodeFrom : Nat → Nat → Nat → List Nat → Option (List Nat)
  | 0, _, _, [] => some []
  | _ + 1, _, _, [] => none
  | 0, _, _, b :: rest =>
    if b < 0x80 then (utf8DecodeFrom 0 0 0 rest).map (fun cs => b :: cs)
    else if b < 0xC2 then none
    else if b < 0xE0 then utf8DecodeFrom 1 (b - 0xC0) 0x80 rest
    else if b < 0xF0 then utf8DecodeFrom 2 (b - 0xE0) 0x800 rest
    else if b < 0xF5 then utf8DecodeFrom 3 (b - 0xF0) 0x10000 rest
    else none
  | k + 1, acc, lo, b :: rest =>
    if isContinuation b then
      if k = 0 then
        if lo ≤ acc * 0x40 + (b - 0x80) ∧ isScalarValue (acc * 0x40 + (b - 0x80)) = true then
          (utf8DecodeFrom 0 0 0 rest).map (fun cs => (acc * 0x40 + (b - 0x80)) :: cs)
        else none
      else utf8DecodeFrom k (acc * 0x40 + (b - 0x80)) lo rest
    else none

/-- Modelled from the spec: the code points of a UTF-8 byte string, if it is
well formed. -/
def utf8Decode (bytes : List Nat) : Option (List Nat) := utf8DecodeFrom 0 0 0 bytes

def ERROR_INVALID_PARAMETER : Nat := 87

def ERROR_INSUFFICIENT_BUFFER : Nat := 122

def ERROR_NO_UNICODE_TRANSLATION : Nat := 1113

/-- Modelled from the spec: the plain multi-byte to wide-character converter
for UTF-8 text. It converts the first `cbMultiByte` bytes of `lpMultiByteStr`
and returns the number of UTF-16 units written; it returns 0, and writes
nothing, when there is nothing to convert, when the bytes are not well-formed
UTF-8, or when the result needs more than `cchWideChar` units. -/
def refMultiByteToWideChar (_codePage _dwFlags : Nat) (lpMultiByteStr : List Nat)
    (cbMultiByte cchWideChar : Nat) : ConvResult :=
  if cbMultiByte = 0 then ⟨0, [], ERROR_INVALID_PARAMETER⟩
  else
    match utf8Decode (lpMultiByteStr.take cbMultiByte) with
    | none => ⟨0, [], ERROR_NO_UNICODE_TRANSLATION⟩
    | some cps =>
      if (cps.flatMap utf16Encode).length ≤ cchWideChar then
        ⟨(cps.flatMap utf16Encode).length, cps.flatMap utf16Encode, 0⟩
      else ⟨0, [], ERROR_INSUFFICIENT_BUFFER⟩

/-! ## Reading a trace -/

/-- Values returned by the `malloc` calls, in call order (`0` for a failed call). -/
def mallocResults (evs : List Event) : List Nat :=
  evs.filterMap fun e => match e with | Event.malloc _ p => some p | _ => none

/-- Pointers passed to `free`, in call order. -/
def freed (evs : List Event) : List Nat :=
  evs.filterMap fun e => match e with | Event.free p => some p | _ => none

/-- Calls of `_wspawnvp`, in call order. -/
def spawnCalls (evs : List Event) : List (Int × List Nat × List (Option (List Nat))) :=
  evs.filterMap fun e => match e with | Event.spawn m c a => some (m, c, a) | _ => none

/-- Calls of `MultiByteToWideChar`: source memory, `cbMultiByte`, `cchWideChar`
and the value returned. -/
def convCalls (evs : List Event) : List (List Nat × Nat × Nat × Nat) :=
  evs.filterMap fun e => match e with
    | Event.argConv s cb _ cch n => some (s, cb, cch, n) | _ => none

/-- Array stores `wszArgv[i] = p`, as pairs `(i, p)`. -/
def writes (evs : List Event) : List (Nat × Nat) :=
  evs.filterMap fun e => match e with | Event.write i p => some (i, p) | _ => none

/-- Indices of the array loads. -/
def reads (evs : List Event) : List Nat :=
  evs.filterMap fun e => match e with | Event.read i => some i | _ => none

/-- The record `MultiByteToWideChar` leaves in the trace for `arg`. -/
def convRecord (env : Env) (arg : List Nat) : List Nat × Nat × Nat × Nat :=
  (cstrMem arg, iArgBufSize arg, iArgBufSize arg, (convertArg env arg).n)

/-- The events of one pass through the loop body that does not fail, for the
argument `arg` at index `iArg`, when `malloc` returns the buffer `p`: the
allocation of `sizeof(WCHAR) * (lstrlen(arg) + 1)` bytes, the store of `p` in
`wszArgv[iArg]`, its two loads, and the conversion of `lstrlen(arg) + 1` bytes
of `arg` into `p`, of capacity `lstrlen(arg) + 1` wide characters. -/
def argEvents (env : Env) (iArg : Nat) (arg : List Nat) (p : Nat) : List Event :=
  [Event.malloc (sizeofWCHAR * (lstrlen (cstrMem arg) + 1)) p,
   Event.write iArg p, Event.read iArg, Event.read iArg,
   Event.argConv (cstrMem arg) (lstrlen (cstrMem arg) + 1) p (lstrlen (cstrMem arg) + 1)
     (env.MultiByteToWideChar CP_UTF8 0 (cstrMem arg) (lstrlen (cstrMem arg) + 1)
       (lstrlen (cstrMem arg) + 1)).n]

/-- The events of the passes for the arguments `args`, the first at index `i`,
with the buffers `ps`. -/
def loopEvents (env : Env) : Nat → List (List Nat) → List Nat → List Event
  | i, arg :: args, p :: ps => argEvents env i arg p ++ loopEvents env (i + 1) args ps
  | _, _, _ => []

/-- State of the conversion loop at its head, after the arguments `done` were
converted into the buffers `ps`; `w1` is the world on loop entry, `a` the array
and `L` the blocks that were live when the call started. -/
structure LoopInv (env : Env) (a : Nat) (L : List Nat) (w1 : World)
    (argv done : List (List Nat)) (ps : List Nat) (slots : List (Option Nat)) (w : World) :
    Prop where
  len : ps.length = done.length
  slots_eq : slots = ps.map some ++ List.replicate (argv.length + 1 - done.length) none
  live : w.live = ps.reverse ++ a :: L
  calls : w.mallocCalls = w1.mallocCalls + done.length
  errno : w.errno = w1.errno
  nz : ∀ p ∈ ps, p ≠ 0
  nodup : ps.Nodup
  sep : ∀ p ∈ ps, p ≠ a ∧ p ∉ L
  content : ps.map (fun p => w.store.lookup p) = done.map (fun s => some (convertArg env s).out)
  trace : ∃ evs, w.trace = w1.trace ++ evs ∧ mallocResults evs = ps ∧ freed evs = []
    ∧ spawnCalls evs = [] ∧ convCalls evs = done.map (convRecord env)
    ∧ writes evs = ps.enum ∧ (∀ i ∈ reads evs, i < done.length)
  events : w.trace = w1.trace ++ loopEvents env 0 done ps

/-- World at the head of the conversion loop, when the path conversion and the
allocation of the array succeeded. -/
def loopEntry (env : Env) (pszCommand : List Nat) (argv : List (List Nat)) (w : World) : World :=
  { w with live := freshPtr w.live :: w.live, mallocCalls := w.mallocCalls + 1,
           lastError := (convertPath env pszCommand).lastError,
           trace := w.trace ++ [Event.pathConv (cstrMem pszCommand) env.PATH_MAX
               (convertPath env pszCommand).n,
             Event.malloc ((argv.length + 1) * env.sizeofPtr) (freshPtr w.live)] }

/-- What `_wspawnvp` is expected to receive for `argv`: the conversion of every
argument, in order, and the `NULL` sentinel. -/
def convertedArgv (env : Env) (argv : List (List Nat)) : List (Option (List Nat)) :=
  argv.map (fun s => some (convertArg env s).out) ++ [none]

/-- A world with an empty heap and an empty trace. -/
def World.empty : World := ⟨[], [], 0, 0, 0, []⟩

/-- A concrete set of collaborators: conversions widen each byte to one unit
and fail exactly on the strings rejected by `convOk`; `malloc` follows `mOk`;
`_wspawnvp` returns the number of arguments it was given plus the mode. -/
def sampleEnv (convOk : List Nat → Bool) (mOk : Nat → Bool) : Env where
  PATH_MAX := 260
  sizeofPtr := 8
  MultiByteToWidePath := fun _ mem cch =>
    if mem.length ≤ cch then ⟨mem.length, mem, 0⟩ else ⟨0, [], 122⟩
  MultiByteToWideChar := fun _ _ mem cb cch =>
    if convOk (mem.take cb) ∧ cb ≤ cch then ⟨cb, mem.take cb, 0⟩ else ⟨0, [], 1113⟩
  Win32ErrorToErrno := fun e => if e = 1113 then 42 else 22
  mallocOk := mOk
  _wspawnvp := fun m _ args => m + (args.length - 1 : Nat)

/-- The collaborators of `sampleEnv` where nothing fails, with the reference
converter for the arguments. -/
def sampleRefEnv : Env :=
  { sampleEnv (fun _ => true) (fun _ => true) with
    MultiByteToWideChar := refMultiByteToWideChar }

/-! ## Lemmas -/

theorem mallocResults_append (x y : List Event) :
    mallocResults (x ++ y) = mallocResults x ++ mallocResults y := by
  simp [mallocResults, List.filterMap_append]

theorem freed_append (x y : List Event) : freed (x ++ y) = freed x ++ freed y := by
  simp [freed, List.filterMap_append]

theorem spawnCalls_append (x y : List Event) :
    spawnCalls (x ++ y) = spawnCalls x ++ spawnCalls y := by
  simp [spawnCalls, List.filterMap_append]

theorem convCalls_append (x y : List Event) :
    convCalls (x ++ y) = convCalls x ++ convCalls y := by
  simp [convCalls, List.filterMap_append]

theorem writes_append (x y : List Event) : writes (x ++ y) = writes x ++ writes y := by
  simp [writes, List.filterMap_append]

theorem reads_append (x y : List Event) : reads (x ++ y) = reads x ++ reads y := by
  simp [reads, List.filterMap_append]

theorem le_foldr_max (l : List Nat) : ∀ x ∈ l, x ≤ l.foldr max 0 := by
  induction l with
  | nil => simp
  | cons y ys ih =>
    intro x hx
    simp only [List.mem_cons] at hx
    simp only [List.foldr_cons]
    rcases hx with rfl | hx
    · exact le_max_left _ _
    · exact le_trans (ih x hx) (le_max_right _ _)

theorem freshPtr_not_mem (l : List Nat) : freshPtr l ∉ l := by
  intro h
  have := le_foldr_max l _ h
  unfold freshPtr at this
  omega

theorem freshPtr_ne_zero (l : List Nat) : freshPtr l ≠ 0 := by
  unfold freshPtr; omega

theorem slots_set (ps : List Nat) (q m : Nat) :
    (ps.map some ++ List.replicate (m + 1) (none : Option Nat)).set ps.length (some q)
      = ps.map some ++ some q :: List.replicate m none := by
  induction ps with
  | nil => simp [List.replicate_succ]
  | cons p ps ih => simpa using ih

theorem slots_get (ps : List Nat) (t : List (Option Nat)) (q : Nat) :
    (ps.map some ++ some q :: t)[ps.length]? = some (some q) := by
  induction ps with
  | nil => simp
  | cons p ps ih => simpa using ih

theorem malloc_ok (env : Env) (size : Nat) (w : World) (h : env.mallocOk w.mallocCalls = true) :
    malloc env size w = (freshPtr w.live,
      { w with live := freshPtr w.live :: w.live, mallocCalls := w.mallocCalls + 1,
               trace := w.trace ++ [Event.malloc size (freshPtr w.live)] }) := by
  simp [malloc, h]

theorem malloc_fail (env : Env) (size : Nat) (w : World)
    (h : env.mallocOk w.mallocCalls = false) :
    malloc env size w = (0,
      { w with errno := ENOMEM, mallocCalls := w.mallocCalls + 1,
               trace := w.trace ++ [Event.malloc size 0] }) := by
  simp [malloc, h]

theorem freeBelow_spec (ps : List Nat) :
    ∀ (R : List Nat) (t : List (Option Nat)) (w : World), (∀ p ∈ ps, p ≠ 0) →
      w.live = ps.reverse ++ R →
      ∃ evs, freeBelow (ps.map some ++ t) ps.length w
          = .ok { w with live := R, trace := w.trace ++ evs }
        ∧ freed evs = ps.reverse ∧ mallocResults evs = [] ∧ spawnCalls evs = []
        ∧ convCalls evs = [] ∧ writes evs = [] ∧ ∀ i ∈ reads evs, i < ps.length := by
  induction ps using List.reverseRecOn with
  | nil =>
    intro R t w _ hl
    refine ⟨[], ?_, by simp [freed], by simp [mallocResults], by simp [spawnCalls],
      by simp [convCalls], by simp [writes], by simp [reads]⟩
    simp at hl
    simp [freeBelow, ← hl]
  | append_singleton ps p ih =>
    intro R t w hnz hl
    have hp : p ≠ 0 := hnz p (by simp)
    have hlive : w.live = p :: (ps.reverse ++ R) := by simpa using hl
    obtain ⟨evs, h1, h2, h3, h4, h5, h6, h7⟩ := ih R (some p :: t)
      { w with live := ps.reverse ++ R, trace := w.trace ++ [Event.read ps.length, Event.free p] }
      (fun x hx => hnz x (by simp [hx])) rfl
    refine ⟨[Event.read ps.length, Event.free p] ++ evs, ?_, ?_, ?_, ?_, ?_, ?_, ?_⟩
    · have hget := slots_get ps t p
      have e1 : (ps ++ [p]).length = ps.length + 1 := by simp
      have e2 : List.map some (ps ++ [p]) ++ t = List.map some ps ++ some p :: t := by simp
      rw [e1, freeBelow, e2]
      simp only [readSlot, hget, bind, Except.bind, free, hp, if_false, hlive, World.log,
        List.mem_cons, true_or, if_true, List.erase_cons_head]
      simpa using h1
    · simp [freed, List.filterMap_append] at h2 ⊢; simpa [freed] using h2
    · simpa [mallocResults, List.filterMap_append] using h3
    · simpa [spawnCalls, List.filterMap_append] using h4
    · simpa [convCalls, List.filterMap_append] using h5
    · simpa [writes, List.filterMap_append] using h6
    · intro i hi
      simp [reads, List.filterMap_append] at hi
      rcases hi with rfl | hi
      · simp
      · have := h7 i (by simpa [reads] using hi)
        simp; omega

theorem loopEvents_snoc (env : Env) (s : List Nat) (q : Nat) (done : List (List Nat)) :
    ∀ (ps : List Nat) (i : Nat), ps.length = done.length →
      loopEvents env i (done ++ [s]) (ps ++ [q])
        = loopEvents env i done ps ++ argEvents env (i + done.length) s q := by
  induction done with
  | nil =>
    intro ps i h
    have hps : ps = [] := List.length_eq_zero.1 (by simpa using h)
    subst hps
    simp [loopEvents]
  | cons d ds ih =>
    intro ps i h
    cases ps with
    | nil => simp at h
    | cons p ps =>
      have h2 : ps.length = ds.length := by simpa using h
      show argEvents env i d p ++ loopEvents env (i + 1) (ds ++ [s]) (ps ++ [q])
        = (argEvents env i d p ++ loopEvents env (i + 1) ds ps)
          ++ argEvents env (i + (ds.length + 1)) s q
      rw [ih ps (i + 1) h2, List.append_assoc, Nat.add_assoc, Nat.add_comm 1 ds.length]

theorem loopEvents_mid (env : Env) (s : List Nat) (post : List (List Nat))
    (pre : List (List Nat)) :
    ∀ (i : Nat) (bufs : List Nat), bufs.length = (pre ++ s :: post).length →
      ∃ ps p qs, bufs = ps ++ p :: qs ∧ ps.length = pre.length
        ∧ loopEvents env i (pre ++ s :: post) bufs
          = loopEvents env i pre ps ++ (argEvents env (i + pre.length) s p
              ++ loopEvents env (i + pre.length + 1) post qs) := by
  induction pre with
  | nil =>
    intro i bufs h
    cases bufs with
    | nil => simp at h
    | cons p qs => exact ⟨[], p, qs, rfl, rfl, by simp [loopEvents]⟩
  | cons d ds ih =>
    intro i bufs h
    cases bufs with
    | nil => simp at h
    | cons b bs =>
      obtain ⟨ps, p, qs, h1, h2, h3⟩ := ih (i + 1) bs (by simpa using h)
      refine ⟨b :: ps, p, qs, by simp [h1], by simp [h2], ?_⟩
      show argEvents env i d b ++ loopEvents env (i + 1) (ds ++ s :: post) bs
        = (argEvents env i d b ++ loopEvents env (i + 1) ds ps)
          ++ (argEvents env (i + (ds.length + 1)) s p
            ++ loopEvents env (i + (ds.length + 1) + 1) post qs)
      rw [h3, List.append_assoc, Nat.add_assoc i 1 ds.length, Nat.add_comm 1 ds.length]

theorem step_ok (env : Env) (a : Nat) (L : List Nat) (w1 : World)
    (argv done : List (List Nat)) (ps : List Nat) (slots : List (Option Nat)) (w : World)
    (s : List Nat) (rest : List (List Nat))
    (inv : LoopInv env a L w1 argv done ps slots w) (hlt : done.length < argv.length)
    (hm : env.mallocOk w.mallocCalls = true) (hc : (convertArg env s).n ≠ 0) :
    ∃ q slots2 w2, convertArgs env a (s :: rest) done.length slots w
        = convertArgs env a rest (done ++ [s]).length slots2 w2
      ∧ LoopInv env a L w1 argv (done ++ [s]) (ps ++ [q]) slots2 w2 := by
  obtain ⟨evs, ht, hmr, hf, hs, hcc, hw, hr⟩ := inv.trace
  have hq0 := freshPtr_ne_zero w.live
  have hqm := freshPtr_not_mem w.live
  have hslots : slots = ps.map some
      ++ List.replicate ((argv.length - done.length) + 1) none := by
    have e : argv.length + 1 - done.length = (argv.length - done.length) + 1 := by omega
    rw [inv.slots_eq, e]
  have hlen : done.length < slots.length := by
    rw [inv.slots_eq, List.length_append, List.length_map, List.length_replicate, inv.len]
    omega
  refine ⟨freshPtr w.live,
    ps.map some ++ some (freshPtr w.live) :: List.replicate (argv.length - done.length) none,
    { w with live := freshPtr w.live :: w.live, mallocCalls := w.mallocCalls + 1,
             store := (freshPtr w.live, (convertArg env s).out) :: w.store,
             lastError := (convertArg env s).lastError,
             trace := w.trace ++ [Event.malloc (sizeofWCHAR * iArgBufSize s) (freshPtr w.live),
               Event.write done.length (freshPtr w.live), Event.read done.length,
               Event.read done.length,
               Event.argConv (cstrMem s) (iArgBufSize s) (freshPtr w.live) (iArgBufSize s)
                 (convertArg env s).n] }, ?_, ?_⟩
  · have hset := slots_set ps (freshPtr w.live) (argv.length - done.length)
    have hget := slots_get ps (List.replicate (argv.length - done.length) none)
      (freshPtr w.live)
    rw [inv.len] at hset hget
    rw [convertArgs, malloc_ok env _ w hm]
    simp only [writeSlot, hlen, if_true, bind, Except.bind, World.log]
    rw [hslots, hset]
    simp only [readSlot, hget, hq0, if_false, hc, World.log, List.append_assoc,
      List.singleton_append, List.length_append, List.length_singleton, List.cons_append,
      List.nil_append]
  · have hmem : ∀ x, x ∈ ps.reverse ++ a :: L → x ∈ w.live := fun x hx => by
      rw [inv.live]; exact hx
    have hq_ps : freshPtr w.live ∉ ps := fun h => hqm (hmem _ (by simp [h]))
    have hq_a : freshPtr w.live ≠ a := fun h => hqm (hmem _ (by simp [h]))
    have hq_L : freshPtr w.live ∉ L := fun h => hqm (hmem _ (by simp [h]))
    refine ⟨by simp [inv.len], ?_, by simp [inv.live], by simp [inv.calls]; omega, inv.errno,
      ?_, ?_, ?_, ?_, ?_, ?_⟩
    · have e : argv.length + 1 - (done ++ [s]).length = argv.length - done.length := by
        simp
      rw [e]; simp
    · intro p hp
      rcases List.mem_append.1 hp with h | h
      · exact inv.nz p h
      · simp at h; rw [h]; exact hq0
    · exact List.Nodup.append inv.nodup (List.nodup_singleton _)
        (by simpa using hq_ps)
    · intro p hp
      rcases List.mem_append.1 hp with h | h
      · exact inv.sep p h
      · simp at h; rw [h]; exact ⟨hq_a, hq_L⟩
    · have h1 : ps.map (fun p => List.lookup p
          ((freshPtr w.live, (convertArg env s).out) :: w.store))
          = ps.map (fun p => List.lookup p w.store) := by
        apply List.map_congr_left
        intro p hp
        have hne : (p == freshPtr w.live) = false := by
          simpa using fun h : p = freshPtr w.live => hq_ps (h ▸ hp)
        simp [List.lookup_cons, hne]
      simp [h1, inv.content]
    · refine ⟨evs ++ [Event.malloc (sizeofWCHAR * iArgBufSize s) (freshPtr w.live),
               Event.write done.length (freshPtr w.live), Event.read done.length,
               Event.read done.length,
               Event.argConv (cstrMem s) (iArgBufSize s) (freshPtr w.live) (iArgBufSize s)
                 (convertArg env s).n], by simp [ht], ?_, ?_, ?_, ?_, ?_, ?_⟩
      · simp [mallocResults, List.filterMap_append] at hmr ⊢; exact hmr
      · simp [freed, List.filterMap_append] at hf ⊢; exact hf
      · simp [spawnCalls, List.filterMap_append] at hs ⊢; exact hs
      · simp [convCalls, List.filterMap_append, convRecord] at hcc ⊢; exact hcc
      · simp only [writes_append, hw]
        simp [writes, List.enum_append, inv.len]
      · intro i hi
        simp [reads, List.filterMap_append] at hi
        rcases hi with h | h
        · have := hr i (by simpa [reads] using h)
          simp; omega
        · simp [h]
    · show w.trace ++ _ = _
      rw [loopEvents_snoc env s (freshPtr w.live) done ps 0 inv.len, inv.events]
      simp [argEvents, iArgBufSize, convertArg]

theorem freeFromDown_eq (slots : List (Option Nat)) :
    ∀ (k : Nat) (w : World), freeFromDown slots k w = freeBelow slots (k + 1) w := by
  intro k
  induction k with
  | zero =>
    intro w
    simp only [freeFromDown, freeBelow, bind, Except.bind]
    cases readSlot slots 0 w with
    | error f => rfl
    | ok r =>
      obtain ⟨p, w2⟩ := r
      simp only []
      cases free p w2 <;> rfl
  | succ k ih =>
    intro w
    rw [freeFromDown, freeBelow]
    simp only [bind, Except.bind]
    cases readSlot slots (k + 1) w with
    | error f => rfl
    | ok r =>
      obtain ⟨p, w2⟩ := r
      simp only []
      cases free p w2 with
      | error f => rfl
      | ok w3 => simp only []; exact ih w3

theorem loop_run (env : Env) (a : Nat) (L : List Nat) (w1 : World) (argv : List (List Nat))
    (pre : List (List Nat)) :
    ∀ (done : List (List Nat)) (ps : List Nat) (slots : List (Option Nat)) (w : World)
      (rest : List (List Nat)),
      LoopInv env a L w1 argv done ps slots w → (done ++ pre).length ≤ argv.length →
      (∀ j, j < pre.length → env.mallocOk (w.mallocCalls + j) = true) →
      (∀ s ∈ pre, (convertArg env s).n ≠ 0) →
      ∃ qs slots2 w2, convertArgs env a (pre ++ rest) done.length slots w
          = convertArgs env a rest (done ++ pre).length slots2 w2
        ∧ LoopInv env a L w1 argv (done ++ pre) (ps ++ qs) slots2 w2 := by
  induction pre with
  | nil =>
    intro done ps slots w rest inv _ _ _
    exact ⟨[], slots, w, by simp, by simpa using inv⟩
  | cons s pre ih =>
    intro done ps slots w rest inv hlen hm hc
    have hlt : done.length < argv.length := by
      simp at hlen; omega
    obtain ⟨q, slots2, w2, hstep, inv2⟩ := step_ok env a L w1 argv done ps slots w s
      (pre ++ rest) inv hlt (by simpa using hm 0 (by simp)) (hc s (by simp))
    have hcalls : w2.mallocCalls = w.mallocCalls + 1 := by
      rw [inv2.calls, inv.calls]; simp; omega
    obtain ⟨qs, slots3, w3, hrun, inv3⟩ := ih (done ++ [s]) (ps ++ [q]) slots2 w2 rest inv2
      (by simpa using hlen)
      (fun j hj => by
        rw [hcalls]
        have := hm (j + 1) (by simp; omega)
        rw [← this]; congr 1; omega)
      (fun t ht => hc t (by simp [ht]))
    refine ⟨q :: qs, slots3, w3, ?_, ?_⟩
    · rw [List.cons_append, hstep, hrun]; simp
    · simpa using inv3

theorem step_allocFail (env : Env) (a : Nat) (L : List Nat) (w1 : World)
    (argv done : List (List Nat)) (ps : List Nat) (slots : List (Option Nat)) (w : World)
    (s : List Nat) (rest : List (List Nat))
    (inv : LoopInv env a L w1 argv done ps slots w) (hlt : done.length < argv.length)
    (ha : a ≠ 0) (hm : env.mallocOk w.mallocCalls = false) :
    ∃ w2 evs, convertArgs env a (s :: rest) done.length slots w
        = .ok (LoopExit.returned (-1) w2)
      ∧ w2.live = L ∧ w2.errno = ENOMEM ∧ w2.trace = w1.trace ++ evs
      ∧ mallocResults evs = ps ++ [0] ∧ freed evs = ps.reverse ++ [a] ∧ spawnCalls evs = []
      ∧ convCalls evs = done.map (convRecord env)
      ∧ writes evs = ps.enum ++ [(done.length, 0)] ∧ (∀ i ∈ reads evs, i < argv.length) := by
  obtain ⟨evs, ht, hmr, hf, hs, hcc, hw, hr⟩ := inv.trace
  have hslots : slots = ps.map some
      ++ List.replicate ((argv.length - done.length) + 1) none := by
    have e : argv.length + 1 - done.length = (argv.length - done.length) + 1 := by omega
    rw [inv.slots_eq, e]
  have hlen : done.length < slots.length := by
    rw [inv.slots_eq, List.length_append, List.length_map, List.length_replicate, inv.len]
    omega
  have hset := slots_set ps 0 (argv.length - done.length)
  have hget := slots_get ps (List.replicate (argv.length - done.length) none) 0
  rw [inv.len] at hset hget
  obtain ⟨fevs, hfree, g1, g2, g3, g4, g5, g6⟩ := freeBelow_spec ps (a :: L)
    (some 0 :: List.replicate (argv.length - done.length) none)
    { w with errno := ENOMEM, mallocCalls := w.mallocCalls + 1,
             trace := w.trace ++ [Event.malloc (sizeofWCHAR * iArgBufSize s) 0,
               Event.write done.length 0, Event.read done.length] }
    inv.nz inv.live
  rw [inv.len] at hfree g6
  dsimp only at hfree
  refine ⟨{ w with live := L, errno := ENOMEM, mallocCalls := w.mallocCalls + 1,
                   trace := w.trace ++ [Event.malloc (sizeofWCHAR * iArgBufSize s) 0,
                     Event.write done.length 0, Event.read done.length] ++ fevs
                     ++ [Event.free a] },
    evs ++ [Event.malloc (sizeofWCHAR * iArgBufSize s) 0,
               Event.write done.length 0, Event.read done.length] ++ fevs ++ [Event.free a],
    ?_, rfl, rfl, by simp [ht], ?_, ?_, ?_, ?_, ?_, ?_⟩
  · rw [convertArgs, malloc_fail env _ w hm]
    simp only [writeSlot, hlen, if_true, bind, Except.bind, World.log]
    rw [hslots, hset]
    simp only [readSlot, hget, if_true, World.log,
      List.append_assoc, List.singleton_append, List.cons_append, List.nil_append]
    simp only [List.append_assoc, List.singleton_append, List.cons_append, List.nil_append]
      at hfree
    rw [hfree]
    simp only [free, ha, if_false, List.mem_cons, true_or, if_true, List.erase_cons_head, pure,
      Except.pure]
    simp
  · simp only [mallocResults_append, hmr, g2]; simp [mallocResults]
  · simp only [freed_append, hf, g1]; simp [freed]
  · simp only [spawnCalls_append, hs, g3]; simp [spawnCalls]
  · simp only [convCalls_append, hcc, g4]; simp [convCalls]
  · simp only [writes_append, hw, g5]; simp [writes]
  · intro i hi
    simp only [reads_append, List.mem_append] at hi
    rcases hi with ((h | h) | h) | h
    · have := hr _ h; omega
    · simp [reads] at h; rw [h]; exact hlt
    · have := g6 _ h; omega
    · simp [reads] at h

theorem step_convFail (env : Env) (a : Nat) (L : List Nat) (w1 : World)
    (argv done : List (List Nat)) (ps : List Nat) (slots : List (Option Nat)) (w : World)
    (s : List Nat) (rest : List (List Nat))
    (inv : LoopInv env a L w1 argv done ps slots w) (hlt : done.length < argv.length)
    (ha : a ≠ 0) (hm : env.mallocOk w.mallocCalls = true) (hc : (convertArg env s).n = 0) :
    ∃ q w2 evs, convertArgs env a (s :: rest) done.length slots w
        = .ok (LoopExit.returned (-1) w2)
      ∧ w2.live = L ∧ w2.errno = env.Win32ErrorToErrno (convertArg env s).lastError
      ∧ w2.trace = w1.trace ++ evs
      ∧ (q ≠ 0 ∧ q ∉ ps ∧ q ≠ a ∧ q ∉ L)
      ∧ mallocResults evs = ps ++ [q] ∧ freed evs = q :: ps.reverse ++ [a]
      ∧ spawnCalls evs = [] ∧ convCalls evs = (done ++ [s]).map (convRecord env)
      ∧ writes evs = (ps ++ [q]).enum ∧ (∀ i ∈ reads evs, i < argv.length) := by
  obtain ⟨evs, ht, hmr, hf, hs, hcc, hw, hr⟩ := inv.trace
  have hq0 := freshPtr_ne_zero w.live
  have hqm := freshPtr_not_mem w.live
  have hmem : ∀ x, x ∈ ps.reverse ++ a :: L → x ∈ w.live := fun x hx => by
    rw [inv.live]; exact hx
  have hq_ps : freshPtr w.live ∉ ps := fun h => hqm (hmem _ (by simp [h]))
  have hq_a : freshPtr w.live ≠ a := fun h => hqm (hmem _ (by simp [h]))
  have hq_L : freshPtr w.live ∉ L := fun h => hqm (hmem _ (by simp [h]))
  have hslots : slots = ps.map some
      ++ List.replicate ((argv.length - done.length) + 1) none := by
    have e : argv.length + 1 - done.length = (argv.length - done.length) + 1 := by omega
    rw [inv.slots_eq, e]
  have hlen : done.length < slots.length := by
    rw [inv.slots_eq, List.length_append, List.length_map, List.length_replicate, inv.len]
    omega
  have hset := slots_set ps (freshPtr w.live) (argv.length - done.length)
  have hget := slots_get ps (List.replicate (argv.length - done.length) none) (freshPtr w.live)
  rw [inv.len] at hset hget
  have hnz : ∀ p ∈ ps ++ [freshPtr w.live], p ≠ 0 := by
    intro p hp
    rcases List.mem_append.1 hp with h | h
    · exact inv.nz p h
    · simp at h; rw [h]; exact hq0
  obtain ⟨fevs, hfree, g1, g2, g3, g4, g5, g6⟩ := freeBelow_spec (ps ++ [freshPtr w.live])
    (a :: L) (List.replicate (argv.length - done.length) none)
    { w with live := freshPtr w.live :: w.live, mallocCalls := w.mallocCalls + 1,
             store := (freshPtr w.live, (convertArg env s).out) :: w.store,
             lastError := (convertArg env s).lastError,
             errno := env.Win32ErrorToErrno (convertArg env s).lastError,
             trace := w.trace ++ [Event.malloc (sizeofWCHAR * iArgBufSize s) (freshPtr w.live),
               Event.write done.length (freshPtr w.live), Event.read done.length,
               Event.read done.length,
               Event.argConv (cstrMem s) (iArgBufSize s) (freshPtr w.live) (iArgBufSize s)
                 (convertArg env s).n] }
    hnz (by simp [inv.live])
  have elen : (ps ++ [freshPtr w.live]).length = done.length + 1 := by simp [inv.len]
  rw [elen] at hfree g6
  dsimp only at hfree
  refine ⟨freshPtr w.live,
    { w with live := L, mallocCalls := w.mallocCalls + 1,
             store := (freshPtr w.live, (convertArg env s).out) :: w.store,
             lastError := (convertArg env s).lastError,
             errno := env.Win32ErrorToErrno (convertArg env s).lastError,
             trace := w.trace ++ [Event.malloc (sizeofWCHAR * iArgBufSize s) (freshPtr w.live),
               Event.write done.length (freshPtr w.live), Event.read done.length,
               Event.read done.length,
               Event.argConv (cstrMem s) (iArgBufSize s) (freshPtr w.live) (iArgBufSize s)
                 (convertArg env s).n] ++ fevs ++ [Event.free a] },
    evs ++ [Event.malloc (sizeofWCHAR * iArgBufSize s) (freshPtr w.live),
               Event.write done.length (freshPtr w.live), Event.read done.length,
               Event.read done.length,
               Event.argConv (cstrMem s) (iArgBufSize s) (freshPtr w.live) (iArgBufSize s)
                 (convertArg env s).n] ++ fevs ++ [Event.free a],
    ?_, rfl, rfl, by simp [ht], ⟨hq0, hq_ps, hq_a, hq_L⟩, ?_, ?_, ?_, ?_, ?_, ?_⟩
  · rw [convertArgs, malloc_ok env _ w hm]
    simp only [writeSlot, hlen, if_true, bind, Except.bind, World.log]
    rw [hslots, hset]
    simp only [readSlot, hget, hq0, if_false, hc, if_true, World.log, freeFromDown_eq,
      List.append_assoc, List.singleton_append, List.cons_append, List.nil_append]
    simp only [List.map_append, List.map_cons, List.map_nil,
      List.append_assoc, List.singleton_append, List.cons_append, List.nil_append] at hfree
    rw [hc] at hfree
    rw [hfree]
    simp only [free, ha, if_false, List.mem_cons, true_or, if_true, List.erase_cons_head, pure,
      Except.pure]
    simp [hc]
  · simp only [mallocResults_append, hmr, g2]; simp [mallocResults]
  · simp only [freed_append, hf, g1]; simp [freed]
  · simp only [spawnCalls_append, hs, g3]; simp [spawnCalls]
  · simp only [convCalls_append, hcc, g4]; simp [convCalls, convRecord]
  · simp only [writes_append, hw, g5]
    simp [writes, List.enum_append, inv.len]
  · intro i hi
    simp only [reads_append, List.mem_append] at hi
    rcases hi with ((h | h) | h) | h
    · have := hr _ h; omega
    · simp [reads] at h; rw [h]; exact hlt
    · have := g6 _ h; omega
    · simp [reads] at h

theorem argvView_spec (w : World) (qs : List Nat) :
    ∀ (outs : List (List Nat)), (∀ q ∈ qs, q ≠ 0 ∧ q ∈ w.live) →
      qs.map (fun p => w.store.lookup p) = outs.map some →
      argvView w (qs.map some ++ [some 0]) = .ok (outs.map some ++ [none]) := by
  induction qs with
  | nil =>
    intro outs _ h
    cases outs with
    | nil => simp [argvView]
    | cons o os => simp at h
  | cons q qs ih =>
    intro outs hq h
    cases outs with
    | nil => simp at h
    | cons o os =>
      simp only [List.map_cons, List.cons.injEq] at h
      have h0 := (hq q (by simp)).1
      have hl := (hq q (by simp)).2
      have := ih os (fun x hx => hq x (by simp [hx])) h.2
      rw [List.map_cons, List.cons_append, argvView, this]
      simp only [List.map_cons, List.cons_append, h0, if_false, deref, hl, if_true,
        h.1, bind, Except.bind, pure, Except.pure]

theorem countArgs_eq (argv : List (List Nat)) : ∀ n, countArgs argv n = n + argv.length := by
  induction argv with
  | nil => intro n; simp [countArgs]
  | cons s rest ih => intro n; simp [countArgs, ih]; omega

theorem loopInv_entry (env : Env) (pszCommand : List Nat) (argv : List (List Nat)) (w : World) :
    LoopInv env (freshPtr w.live) w.live (loopEntry env pszCommand argv w) argv [] []
      (List.replicate (argv.length + 1) none) (loopEntry env pszCommand argv w) where
  len := rfl
  slots_eq := by simp
  live := by simp [loopEntry]
  calls := by simp
  errno := rfl
  nz := by simp
  nodup := List.nodup_nil
  sep := by simp
  content := by simp
  trace := ⟨[], by simp, rfl, rfl, rfl, rfl, rfl, by simp [reads]⟩
  events := by simp [loopEvents]

theorem spawn_of_returned (env : Env) (iMode : Int) (pszCommand : List Nat)
    (argv : List (List Nat)) (w : World) (ret : Int) (w2 : World)
    (hp : (convertPath env pszCommand).n ≠ 0) (hm : env.mallocOk w.mallocCalls = true)
    (hloop : convertArgs env (freshPtr w.live) argv 0 (List.replicate (argv.length + 1) none)
      (loopEntry env pszCommand argv w) = .ok (LoopExit.returned ret w2)) :
    _spawnvpU env iMode pszCommand argv w = .ok (ret, w2) := by
  have hmal := malloc_ok env ((argv.length + 1) * env.sizeofPtr)
    { w with lastError := (convertPath env pszCommand).lastError,
             trace := w.trace ++ [Event.pathConv (cstrMem pszCommand) env.PATH_MAX
               (convertPath env pszCommand).n] } hm
  dsimp only at hmal
  unfold _spawnvpU
  simp only [hp, if_false, countArgs_eq, Nat.zero_add]
  rw [hmal]
  simp only [freshPtr_ne_zero, if_false]
  simp only [loopEntry, List.append_assoc, List.singleton_append] at hloop
  simp only [bind, Except.bind, List.append_assoc, List.singleton_append, hloop, pure,
    Except.pure]

theorem loopEntry_trace (env : Env) (pszCommand : List Nat) (argv : List (List Nat))
    (w : World) :
    (loopEntry env pszCommand argv w).trace = w.trace
      ++ [Event.pathConv (cstrMem pszCommand) env.PATH_MAX (convertPath env pszCommand).n,
          Event.malloc ((argv.length + 1) * env.sizeofPtr) (freshPtr w.live)] := rfl

theorem fresh_blocks (a : Nat) (L ps : List Nat) (ha : a ≠ 0) (haL : a ∉ L)
    (hnz : ∀ p ∈ ps, p ≠ 0) (hnd : ps.Nodup) (hsep : ∀ p ∈ ps, p ≠ a ∧ p ∉ L) :
    (a :: ps).Nodup ∧ ∀ b ∈ a :: ps, b ≠ 0 ∧ b ∉ L := by
  refine ⟨List.nodup_cons.2 ⟨fun h => (hsep a h).1 rfl, hnd⟩, ?_⟩
  intro b hb
  rcases List.mem_cons.1 hb with h | h
  · rw [h]; exact ⟨ha, haL⟩
  · exact ⟨hnz b h, (hsep b h).2⟩

theorem run_argAllocFail (env : Env) (iMode : Int) (pszCommand : List Nat)
    (pre : List (List Nat)) (s : List Nat) (post : List (List Nat)) (w : World)
    (hp : (convertPath env pszCommand).n ≠ 0)
    (hm : ∀ j, j ≤ pre.length → env.mallocOk (w.mallocCalls + j) = true)
    (hc : ∀ t ∈ pre, (convertArg env t).n ≠ 0)
    (hfail : env.mallocOk (w.mallocCalls + pre.length + 1) = false) :
    ∃ a bufs w2 evs, _spawnvpU env iMode pszCommand (pre ++ s :: post) w = .ok (-1, w2)
      ∧ w2.live = w.live ∧ w2.errno = ENOMEM ∧ w2.trace = w.trace ++ evs
      ∧ (∃ tl, evs = Event.pathConv (cstrMem pszCommand) env.PATH_MAX
            (convertPath env pszCommand).n
          :: Event.malloc (((pre ++ s :: post).length + 1) * env.sizeofPtr) a :: tl)
      ∧ bufs.length = pre.length ∧ (a :: bufs).Nodup ∧ (∀ b ∈ a :: bufs, b ≠ 0 ∧ b ∉ w.live)
      ∧ mallocResults evs = a :: bufs ++ [0] ∧ freed evs = bufs.reverse ++ [a]
      ∧ spawnCalls evs = [] ∧ convCalls evs = pre.map (convRecord env)
      ∧ writes evs = bufs.enum ++ [(pre.length, 0)]
      ∧ (∀ i ∈ reads evs, i < (pre ++ s :: post).length) := by
  have ha := freshPtr_ne_zero w.live
  have haL := freshPtr_not_mem w.live
  have inv0 := loopInv_entry env pszCommand (pre ++ s :: post) w
  obtain ⟨qs, slots2, w2, hrun, inv2⟩ := loop_run env (freshPtr w.live) w.live
    (loopEntry env pszCommand (pre ++ s :: post) w) (pre ++ s :: post) pre [] [] _ _
    (s :: post) inv0 (by simp)
    (fun j hj => by
      have := hm (j + 1) (by omega)
      simpa [loopEntry, Nat.add_assoc, Nat.add_comm 1 j] using this)
    hc
  simp only [List.nil_append, List.length_nil] at hrun inv2
  obtain ⟨w3, evs, hstep, h1, h2, h3, h4, h5, h6, h7, h8, h9⟩ := step_allocFail env
    (freshPtr w.live) w.live _ (pre ++ s :: post) pre qs slots2 w2 s post inv2 (by simp) ha
    (by rw [inv2.calls]; simpa [loopEntry, Nat.add_assoc, Nat.add_comm 1] using hfail)
  obtain ⟨hnd, hfr⟩ := fresh_blocks _ _ qs ha haL inv2.nz inv2.nodup inv2.sep
  refine ⟨freshPtr w.live, qs, w3,
    [Event.pathConv (cstrMem pszCommand) env.PATH_MAX (convertPath env pszCommand).n,
     Event.malloc (((pre ++ s :: post).length + 1) * env.sizeofPtr) (freshPtr w.live)] ++ evs,
    ?_, h1, h2, ?_, ⟨evs, rfl⟩, inv2.len, hnd, hfr, ?_, ?_, ?_, ?_, ?_, ?_⟩
  · exact spawn_of_returned env iMode pszCommand _ w _ _ hp (by simpa using hm 0 (by omega))
      (by rw [hrun, hstep])
  · rw [h3, loopEntry_trace]; simp
  · simp only [mallocResults_append, h4]; simp [mallocResults]
  · simp only [freed_append, h5]; simp [freed]
  · simp only [spawnCalls_append, h6]; simp [spawnCalls]
  · simp only [convCalls_append, h7]; simp [convCalls]
  · simp only [writes_append, h8]; simp [writes]
  · intro i hi
    simp only [reads_append, List.mem_append] at hi
    rcases hi with h | h
    · simp [reads] at h
    · exact h9 _ h

theorem run_argConvFail (env : Env) (iMode : Int) (pszCommand : List Nat)
    (pre : List (List Nat)) (s : List Nat) (post : List (List Nat)) (w : World)
    (hp : (convertPath env pszCommand).n ≠ 0)
    (hm : ∀ j, j ≤ pre.length + 1 → env.mallocOk (w.mallocCalls + j) = true)
    (hc : ∀ t ∈ pre, (convertArg env t).n ≠ 0)
    (hfail : (convertArg env s).n = 0) :
    ∃ a bufs w2 evs, _spawnvpU env iMode pszCommand (pre ++ s :: post) w = .ok (-1, w2)
      ∧ w2.live = w.live
      ∧ w2.errno = env.Win32ErrorToErrno (convertArg env s).lastError
      ∧ w2.trace = w.trace ++ evs
      ∧ (∃ tl, evs = Event.pathConv (cstrMem pszCommand) env.PATH_MAX
            (convertPath env pszCommand).n
          :: Event.malloc (((pre ++ s :: post).length + 1) * env.sizeofPtr) a :: tl)
      ∧ bufs.length = pre.length + 1 ∧ (a :: bufs).Nodup
      ∧ (∀ b ∈ a :: bufs, b ≠ 0 ∧ b ∉ w.live)
      ∧ mallocResults evs = a :: bufs ∧ freed evs = bufs.reverse ++ [a]
      ∧ spawnCalls evs = [] ∧ convCalls evs = (pre ++ [s]).map (convRecord env)
      ∧ writes evs = bufs.enum
      ∧ (∀ i ∈ reads evs, i < (pre ++ s :: post).length) := by
  have ha := freshPtr_ne_zero w.live
  have haL := freshPtr_not_mem w.live
  have inv0 := loopInv_entry env pszCommand (pre ++ s :: post) w
  obtain ⟨qs, slots2, w2, hrun, inv2⟩ := loop_run env (freshPtr w.live) w.live
    (loopEntry env pszCommand (pre ++ s :: post) w) (pre ++ s :: post) pre [] [] _ _
    (s :: post) inv0 (by simp)
    (fun j hj => by
      have := hm (j + 1) (by omega)
      simpa [loopEntry, Nat.add_assoc, Nat.add_comm 1 j] using this)
    hc
  simp only [List.nil_append, List.length_nil] at hrun inv2
  obtain ⟨q, w3, evs, hstep, h1, h2, h3, ⟨hq0, hqps, hqa, hqL⟩, h4, h5, h6, h7, h8, h9⟩ :=
    step_convFail env (freshPtr w.live) w.live _ (pre ++ s :: post) pre qs slots2 w2 s post
      inv2 (by simp) ha
      (by
        rw [inv2.calls]
        have := hm (pre.length + 1) (by omega)
        simpa [loopEntry, Nat.add_assoc, Nat.add_comm 1] using this)
      hfail
  obtain ⟨hnd, hfr⟩ := fresh_blocks _ _ (qs ++ [q]) ha haL
    (by
      intro p hp
      rcases List.mem_append.1 hp with h | h
      · exact inv2.nz p h
      · simp at h; rw [h]; exact hq0)
    (List.Nodup.append inv2.nodup (List.nodup_singleton _) (by simpa using hqps))
    (by
      intro p hp
      rcases List.mem_append.1 hp with h | h
      · exact inv2.sep p h
      · simp at h; rw [h]; exact ⟨hqa, hqL⟩)
  refine ⟨freshPtr w.live, qs ++ [q], w3,
    [Event.pathConv (cstrMem pszCommand) env.PATH_MAX (convertPath env pszCommand).n,
     Event.malloc (((pre ++ s :: post).length + 1) * env.sizeofPtr) (freshPtr w.live)] ++ evs,
    ?_, h1, h2, ?_, ⟨evs, rfl⟩, by simp [inv2.len], hnd, hfr, ?_, ?_, ?_, ?_, ?_, ?_⟩
  · exact spawn_of_returned env iMode pszCommand _ w _ _ hp (by simpa using hm 0 (by omega))
      (by rw [hrun, hstep])
  · rw [h3, loopEntry_trace]; simp
  · simp only [mallocResults_append, h4]; simp [mallocResults]
  · simp only [freed_append, h5]; simp [freed]
  · simp only [spawnCalls_append, h6]; simp [spawnCalls]
  · simp only [convCalls_append, h7]; simp [convCalls]
  · simp only [writes_append, h8]; simp [writes]
  · intro i hi
    simp only [reads_append, List.mem_append] at hi
    rcases hi with h | h
    · simp [reads] at h
    · exact h9 _ h

theorem run_success (env : Env) (iMode : Int) (pszCommand : List Nat)
    (argv : List (List Nat)) (w : World)
    (hp : (convertPath env pszCommand).n ≠ 0)
    (hm : ∀ j, j ≤ argv.length → env.mallocOk (w.mallocCalls + j) = true)
    (hc : ∀ t ∈ argv, (convertArg env t).n ≠ 0) :
    ∃ a bufs w2 before after,
      _spawnvpU env iMode pszCommand argv w
        = .ok (env._wspawnvp iMode (convertPath env pszCommand).out (convertedArgv env argv), w2)
      ∧ w2.live = w.live ∧ w2.errno = w.errno
      ∧ w2.trace = w.trace ++ before
          ++ [Event.spawn iMode (convertPath env pszCommand).out (convertedArgv env argv)]
          ++ after
      ∧ before = Event.pathConv (cstrMem pszCommand) env.PATH_MAX
            (convertPath env pszCommand).n
          :: Event.malloc ((argv.length + 1) * env.sizeofPtr) a
          :: (loopEvents env 0 argv bufs ++ [Event.write argv.length 0])
      ∧ bufs.length = argv.length ∧ (a :: bufs).Nodup
      ∧ (∀ b ∈ a :: bufs, b ≠ 0 ∧ b ∉ w.live)
      ∧ (mallocResults before = a :: bufs ∧ freed before = [] ∧ spawnCalls before = []
        ∧ convCalls before = argv.map (convRecord env)
        ∧ writes before = bufs.enum ++ [(argv.length, 0)]
        ∧ (∀ i ∈ reads before, i < argv.length))
      ∧ (mallocResults after = [] ∧ freed after = bufs.reverse ++ [a] ∧ spawnCalls after = []
        ∧ convCalls after = [] ∧ writes after = [] ∧ (∀ i ∈ reads after, i < argv.length)) := by
  have ha := freshPtr_ne_zero w.live
  have haL := freshPtr_not_mem w.live
  have inv0 := loopInv_entry env pszCommand argv w
  obtain ⟨qs, slots2, w2, hrun, inv2⟩ := loop_run env (freshPtr w.live) w.live
    (loopEntry env pszCommand argv w) argv argv [] [] _ _ [] inv0 (by simp)
    (fun j hj => by
      have := hm (j + 1) (by omega)
      simpa [loopEntry, Nat.add_assoc, Nat.add_comm 1 j] using this)
    hc
  simp only [List.nil_append, List.length_nil, List.append_nil] at hrun inv2
  obtain ⟨evs, ht, hmr, hf, hs, hcc, hw, hr⟩ := inv2.trace
  have hevs : evs = loopEvents env 0 argv qs :=
    List.append_cancel_left (ht.symm.trans inv2.events)
  have hslots : slots2 = qs.map some ++ List.replicate (0 + 1) none := by
    rw [inv2.slots_eq]; simp
  have hset := slots_set qs 0 0
  rw [inv2.len] at hset
  have hlen : argv.length < slots2.length := by
    rw [inv2.slots_eq]; simp [inv2.len]
  have hview := argvView_spec
    { w2 with trace := w2.trace ++ [Event.write argv.length 0] } qs
    (argv.map (fun s => (convertArg env s).out))
    (fun q hq => ⟨inv2.nz q hq, by simp [inv2.live, hq]⟩)
    (by simpa [Function.comp_def] using inv2.content)
  obtain ⟨fevs, hfree, g1, g2, g3, g4, g5, g6⟩ := freeBelow_spec qs (freshPtr w.live :: w.live)
    [some 0]
    { w2 with trace := w2.trace ++ [Event.write argv.length 0]
        ++ [Event.spawn iMode (convertPath env pszCommand).out (convertedArgv env argv)] }
    inv2.nz inv2.live
  rw [inv2.len] at hfree g6
  dsimp only at hfree
  obtain ⟨hnd, hfr⟩ := fresh_blocks _ _ qs ha haL inv2.nz inv2.nodup inv2.sep
  have hmal := malloc_ok env ((argv.length + 1) * env.sizeofPtr)
    { w with lastError := (convertPath env pszCommand).lastError,
             trace := w.trace ++ [Event.pathConv (cstrMem pszCommand) env.PATH_MAX
               (convertPath env pszCommand).n] } (by simpa using hm 0 (by omega))
  dsimp only at hmal
  refine ⟨freshPtr w.live, qs,
    { w2 with live := w.live,
              trace := w2.trace ++ [Event.write argv.length 0]
                ++ [Event.spawn iMode (convertPath env pszCommand).out (convertedArgv env argv)]
                ++ fevs ++ [Event.free (freshPtr w.live)] },
    [Event.pathConv (cstrMem pszCommand) env.PATH_MAX (convertPath env pszCommand).n,
     Event.malloc ((argv.length + 1) * env.sizeofPtr) (freshPtr w.live)] ++ evs
      ++ [Event.write argv.length 0],
    fevs ++ [Event.free (freshPtr w.live)],
    ?_, rfl, ?_, ?_, by rw [hevs]; simp, inv2.len, hnd, hfr,
    ⟨?_, ?_, ?_, ?_, ?_, ?_⟩, ⟨?_, ?_, ?_, ?_, ?_, ?_⟩⟩
  · unfold _spawnvpU
    simp only [hp, if_false, countArgs_eq, Nat.zero_add]
    rw [hmal]
    simp only [freshPtr_ne_zero, if_false]
    simp only [loopEntry, List.append_assoc, List.singleton_append, convertArgs] at hrun
    simp only [bind, Except.bind, List.append_assoc, List.singleton_append, hrun, pure,
      Except.pure, writeSlot, hlen, if_true, World.log]
    rw [hslots, hset]
    simp only [List.replicate_zero, convertedArgv] at hview hfree ⊢
    rw [hview]
    simp only [List.append_assoc, List.singleton_append, List.cons_append, List.nil_append,
      List.map_map, Function.comp_def] at hfree ⊢
    rw [hfree]
    simp only [free, ha, if_false, List.mem_cons, true_or, if_true, List.erase_cons_head]
    simp
  · exact inv2.errno
  · show w2.trace ++ _ ++ _ ++ _ ++ _ = _
    rw [ht, loopEntry_trace]; simp
  · simp only [mallocResults_append, hmr]; simp [mallocResults]
  · simp only [freed_append, hf]; simp [freed]
  · simp only [spawnCalls_append, hs]; simp [spawnCalls]
  · simp only [convCalls_append, hcc]; simp [convCalls]
  · simp only [writes_append, hw]; simp [writes]
  · intro i hi
    simp only [reads_append, List.mem_append] at hi
    rcases hi with (h | h) | h
    · simp [reads] at h
    · exact hr _ h
    · simp [reads] at h
  · simp only [mallocResults_append, g2]; simp [mallocResults]
  · simp only [freed_append, g1]; simp [freed]
  · simp only [spawnCalls_append, g3]; simp [spawnCalls]
  · simp only [convCalls_append, g4]; simp [convCalls]
  · simp only [writes_append, g5]; simp [writes]
  · intro i hi
    simp only [reads_append, List.mem_append] at hi
    rcases hi with h | h
    · exact g6 _ h
    · simp [reads] at h

theorem run_pathFail (env : Env) (iMode : Int) (pszCommand : List Nat)
    (argv : List (List Nat)) (w : World) (hp : (convertPath env pszCommand).n = 0) :
    _spawnvpU env iMode pszCommand argv w = .ok (-1,
      { w with lastError := (convertPath env pszCommand).lastError,
               errno := env.Win32ErrorToErrno (convertPath env pszCommand).lastError,
               trace := w.trace ++ [Event.pathConv (cstrMem pszCommand) env.PATH_MAX 0] }) := by
  unfold _spawnvpU
  simp only [hp, if_true]

theorem run_arrayAllocFail (env : Env) (iMode : Int) (pszCommand : List Nat)
    (argv : List (List Nat)) (w : World) (hp : (convertPath env pszCommand).n ≠ 0)
    (hm : env.mallocOk w.mallocCalls = false) :
    _spawnvpU env iMode pszCommand argv w = .ok (-1,
      { w with lastError := (convertPath env pszCommand).lastError,
               errno := ENOMEM, mallocCalls := w.mallocCalls + 1,
               trace := w.trace ++ [Event.pathConv (cstrMem pszCommand) env.PATH_MAX
                   (convertPath env pszCommand).n,
                 Event.malloc ((argv.length + 1) * env.sizeofPtr) 0] }) := by
  have hmal := malloc_fail env ((argv.length + 1) * env.sizeofPtr)
    { w with lastError := (convertPath env pszCommand).lastError,
             trace := w.trace ++ [Event.pathConv (cstrMem pszCommand) env.PATH_MAX
               (convertPath env pszCommand).n] } hm
  dsimp only at hmal
  unfold _spawnvpU
  simp only [hp, if_false, countArgs_eq, Nat.zero_add]
  rw [hmal]
  simp

theorem first_bad {α : Type} (P : Nat → Prop) (Q : α → Prop) :
    ∀ (l : List α) (off : Nat),
      ((∀ j, j < l.length → P (off + j)) ∧ (∀ s ∈ l, Q s))
      ∨ ∃ pre s post, l = pre ++ s :: post ∧ (∀ j, j < pre.length → P (off + j))
          ∧ (∀ t ∈ pre, Q t) ∧ ¬ (P (off + pre.length) ∧ Q s) := by
  intro l
  induction l with
  | nil => intro off; left; simp
  | cons x xs ih =>
    intro off
    by_cases hx : P off ∧ Q x
    · rcases ih (off + 1) with ⟨h1, h2⟩ | ⟨pre, s, post, he, h1, h2, h3⟩
      · left
        refine ⟨?_, ?_⟩
        · intro j hj
          cases j with
          | zero => exact hx.1
          | succ j =>
            have := h1 j (by simpa using hj)
            rwa [Nat.add_assoc, Nat.add_comm 1 j] at this
        · intro s hs
          rcases List.mem_cons.1 hs with h | h
          · rw [h]; exact hx.2
          · exact h2 s h
      · right
        refine ⟨x :: pre, s, post, by simp [he], ?_, ?_, ?_⟩
        · intro j hj
          cases j with
          | zero => exact hx.1
          | succ j =>
            have := h1 j (by simpa using hj)
            rwa [Nat.add_assoc, Nat.add_comm 1 j] at this
        · intro t ht
          rcases List.mem_cons.1 ht with h | h
          · rw [h]; exact hx.2
          · exact h2 t h
        · simpa [Nat.add_assoc, Nat.add_comm 1] using h3
    · right
      exact ⟨[], x, xs, rfl, by simp, by simp, by simpa using hx⟩

/-- Every call falls in exactly one of five cases, by the first collaborator
call that fails. -/
theorem run_cases (env : Env) (pszCommand : List Nat) (argv : List (List Nat)) (w : World) :
    (convertPath env pszCommand).n = 0
    ∨ ((convertPath env pszCommand).n ≠ 0 ∧ env.mallocOk w.mallocCalls = false)
    ∨ (∃ pre s post, argv = pre ++ s :: post ∧ (convertPath env pszCommand).n ≠ 0
        ∧ (∀ j, j ≤ pre.length → env.mallocOk (w.mallocCalls + j) = true)
        ∧ (∀ t ∈ pre, (convertArg env t).n ≠ 0)
        ∧ env.mallocOk (w.mallocCalls + pre.length + 1) = false)
    ∨ (∃ pre s post, argv = pre ++ s :: post ∧ (convertPath env pszCommand).n ≠ 0
        ∧ (∀ j, j ≤ pre.length + 1 → env.mallocOk (w.mallocCalls + j) = true)
        ∧ (∀ t ∈ pre, (convertArg env t).n ≠ 0)
        ∧ (convertArg env s).n = 0)
    ∨ ((convertPath env pszCommand).n ≠ 0
        ∧ (∀ j, j ≤ argv.length → env.mallocOk (w.mallocCalls + j) = true)
        ∧ (∀ t ∈ argv, (convertArg env t).n ≠ 0)) := by
  by_cases hp : (convertPath env pszCommand).n = 0
  · exact Or.inl hp
  by_cases hm0 : env.mallocOk w.mallocCalls = true
  swap
  · exact Or.inr (Or.inl ⟨hp, by simpa using hm0⟩)
  have hall : ∀ (n : Nat), (∀ j, j < n → env.mallocOk (w.mallocCalls + 1 + j) = true) →
      ∀ j, j ≤ n → env.mallocOk (w.mallocCalls + j) = true := by
    intro n h j hj
    cases j with
    | zero => simpa using hm0
    | succ j =>
      have := h j (by omega)
      rwa [Nat.add_assoc, Nat.add_comm 1 j] at this
  rcases first_bad (fun j => env.mallocOk j = true) (fun s => (convertArg env s).n ≠ 0) argv
    (w.mallocCalls + 1) with ⟨h1, h2⟩ | ⟨pre, s, post, he, h1, h2, h3⟩
  · exact Or.inr (Or.inr (Or.inr (Or.inr ⟨hp, hall _ h1, h2⟩)))
  · by_cases hk : env.mallocOk (w.mallocCalls + 1 + pre.length) = true
    · refine Or.inr (Or.inr (Or.inr (Or.inl ⟨pre, s, post, he, hp, ?_, h2, ?_⟩)))
      · apply hall
        intro j hj
        rcases Nat.lt_succ_iff_lt_or_eq.1 hj with h | h
        · exact h1 j h
        · rw [h]; exact hk
      · by_contra hne
        exact h3 ⟨hk, hne⟩
    · refine Or.inr (Or.inr (Or.inl ⟨pre, s, post, he, hp, hall _ h1, h2, ?_⟩))
      rw [Nat.add_assoc, Nat.add_comm pre.length 1, ← Nat.add_assoc]
      simpa using hk

theorem convertArgs_finished_index (env : Env) (a : Nat) (rest : List (List Nat)) :
    ∀ (i : Nat) (slots : List (Option Nat)) (w : World) (i2 : Nat) (slots2 : List (Option Nat))
      (w2 : World),
      convertArgs env a rest i slots w = .ok (LoopExit.finished i2 slots2 w2) →
      i2 = i + rest.length := by
  induction rest with
  | nil =>
    intro i slots w i2 slots2 w2 h
    simp only [convertArgs, Except.ok.injEq, LoopExit.finished.injEq] at h
    simp [h.1]
  | cons s rest ih =>
    intro i slots w i2 slots2 w2 h
    rw [convertArgs] at h
    simp only [bind, Except.bind, pure, Except.pure] at h
    split at h
    · simp at h
    · split at h
      · simp at h
      · split at h
        · split at h
          · simp at h
          · split at h
            · simp at h
            · simp at h
        · split at h
          · simp at h
          · split at h
            · split at h
              · simp at h
              · split at h
                · simp at h
                · simp at h
            · have := ih _ _ _ _ _ _ h
              simp; omega

theorem utf16_le_utf8 (c : Nat) : (utf16Encode c).length ≤ (utf8Encode c).length := by
  unfold utf16Encode utf8Encode
  split_ifs
  all_goals simp
  all_goals omega

theorem utf8Decode_encode (c : Nat) (hc : isScalarValue c = true) (rest : List Nat) :
    utf8Decode (utf8Encode c ++ rest) = (utf8Decode rest).map (fun cs => c :: cs) := by
  have hs := hc
  simp only [isScalarValue, Bool.or_eq_true, Bool.and_eq_true, decide_eq_true_eq] at hc
  unfold utf8Decode utf8Encode
  split_ifs with h1 h2 h3
  · rw [List.singleton_append, utf8DecodeFrom, if_pos h1]
  · have e : (0xC0 + c / 0x40 - 0xC0) * 0x40 + (0x80 + c % 0x40 - 0x80) = c := by omega
    have a1 : ¬ (0xC0 + c / 0x40 < 0x80) := by omega
    have a2 : ¬ (0xC0 + c / 0x40 < 0xC2) := by omega
    have a3 : 0xC0 + c / 0x40 < 0xE0 := by omega
    have a4 : isContinuation (0x80 + c % 0x40) = true := by
      simp [isContinuation]; omega
    have a5 : 0x80 ≤ c := by omega
    simp only [List.cons_append, List.nil_append, utf8DecodeFrom, a1, a2, a3, a4, a5, hs, e,
      if_true, if_false, and_self]
    rfl
  · have e : ((0xE0 + c / 0x1000 - 0xE0) * 0x40 + (0x80 + c / 0x40 % 0x40 - 0x80)) * 0x40
        + (0x80 + c % 0x40 - 0x80) = c := by omega
    have a1 : ¬ (0xE0 + c / 0x1000 < 0x80) := by omega
    have a2 : ¬ (0xE0 + c / 0x1000 < 0xC2) := by omega
    have a3 : ¬ (0xE0 + c / 0x1000 < 0xE0) := by omega
    have a4 : 0xE0 + c / 0x1000 < 0xF0 := by omega
    have a5 : isContinuation (0x80 + c / 0x40 % 0x40) = true := by
      simp [isContinuation]; omega
    have a6 : isContinuation (0x80 + c % 0x40) = true := by
      simp [isContinuation]; omega
    have a7 : 0x800 ≤ c := by omega
    simp only [List.cons_append, List.nil_append, utf8DecodeFrom, a1, a2, a3, a4, a5, a6, a7, hs,
      e, if_true, if_false, and_self, Nat.succ_ne_zero, Nat.reduceEqDiff]
    rfl
  · have e : (((0xF0 + c / 0x40000 - 0xF0) * 0x40 + (0x80 + c / 0x1000 % 0x40 - 0x80)) * 0x40
        + (0x80 + c / 0x40 % 0x40 - 0x80)) * 0x40 + (0x80 + c % 0x40 - 0x80) = c := by omega
    have a1 : ¬ (0xF0 + c / 0x40000 < 0x80) := by omega
    have a2 : ¬ (0xF0 + c / 0x40000 < 0xC2) := by omega
    have a3 : ¬ (0xF0 + c / 0x40000 < 0xE0) := by omega
    have a4 : ¬ (0xF0 + c / 0x40000 < 0xF0) := by omega
    have a4b : 0xF0 + c / 0x40000 < 0xF5 := by omega
    have a5 : isContinuation (0x80 + c / 0x1000 % 0x40) = true := by
      simp [isContinuation]; omega
    have a6 : isContinuation (0x80 + c / 0x40 % 0x40) = true := by
      simp [isContinuation]; omega
    have a6b : isContinuation (0x80 + c % 0x40) = true := by
      simp [isContinuation]; omega
    have a7 : 0x10000 ≤ c := by omega
    simp only [List.cons_append, List.nil_append, utf8DecodeFrom, a1, a2, a3, a4, a4b, a5, a6,
      a6b, a7, hs, e, if_true, if_false, and_self, Nat.succ_ne_zero, Nat.reduceEqDiff]
    rfl

theorem utf8Decode_flatMap (cps : List Nat) (h : ∀ c ∈ cps, isScalarValue c = true) :
    utf8Decode (cps.flatMap utf8Encode) = some cps := by
  induction cps with
  | nil => simp [utf8Decode, utf8DecodeFrom]
  | cons c cs ih =>
    rw [List.flatMap_cons, utf8Decode_encode c (h c (by simp)), ih (fun x hx => h x (by simp [hx]))]
    rfl

theorem utf8Encode_ne_zero (c : Nat) (hc : c ≠ 0) : ∀ b ∈ utf8Encode c, b ≠ 0 := by
  unfold utf8Encode
  split_ifs
  all_goals simp
  all_goals omega

theorem lstrlen_cstrMem (s : List Nat) (h : ∀ b ∈ s, b ≠ 0) : lstrlen (cstrMem s) = s.length := by
  unfold lstrlen cstrMem
  rw [List.takeWhile_append_of_pos (by simpa using h)]
  simp [List.takeWhile]

theorem window_eq (s : List Nat) :
    (cstrMem s).take (iArgBufSize s) = s.takeWhile (fun b => b != 0) ++ [0] := by
  unfold iArgBufSize lstrlen cstrMem
  induction s with
  | nil => simp [List.takeWhile]
  | cons b t ih =>
    by_cases hb : b = 0
    · simp [hb, List.takeWhile]
    · simp [hb, List.takeWhile_cons] 
      simpa using ih

theorem utf8DecodeFrom_ends_zero (z : List Nat) :
    ∀ (k acc lo : Nat) (cps : List Nat), utf8DecodeFrom k acc lo (z ++ [0]) = some cps →
      ∃ cps1, cps = cps1 ++ [0] := by
  induction z with
  | nil =>
    intro k acc lo cps h
    cases k with
    | zero =>
      simp [utf8DecodeFrom] at h
      exact ⟨[], by simp [← h]⟩
    | succ k => simp [utf8DecodeFrom, isContinuation] at h
  | cons b t ih =>
    intro k acc lo cps h
    cases k with
    | zero =>
      rw [List.cons_append, utf8DecodeFrom] at h
      split_ifs at h
      · cases hd : utf8DecodeFrom 0 0 0 (t ++ [0]) with
        | none => simp [hd] at h
        | some cs =>
          obtain ⟨cps1, rfl⟩ := ih _ _ _ _ hd
          simp [hd] at h
          exact ⟨b :: cps1, by simp [← h]⟩
      · exact ih _ _ _ _ h
      · exact ih _ _ _ _ h
      · exact ih _ _ _ _ h
    | succ k =>
      rw [List.cons_append, utf8DecodeFrom] at h
      split_ifs at h
      · cases hd : utf8DecodeFrom 0 0 0 (t ++ [0]) with
        | none => simp [hd] at h
        | some cs =>
          obtain ⟨cps1, rfl⟩ := ih _ _ _ _ hd
          simp [hd] at h
          exact ⟨(acc * 0x40 + (b - 0x80)) :: cps1, by simp [← h]⟩
      · exact ih _ _ _ _ h

theorem flatMap_utf16_le_utf8 (cps : List Nat) :
    (cps.flatMap utf16Encode).length ≤ (cps.flatMap utf8Encode).length := by
  induction cps with
  | nil => simp
  | cons c cs ih =>
    have := utf16_le_utf8 c
    simp only [List.flatMap_cons, List.length_append]
    omega

theorem refConv_wellFormed (cps : List Nat) (hcps : ∀ c ∈ cps, isScalarValue c = true ∧ c ≠ 0) :
    refMultiByteToWideChar CP_UTF8 0 (cstrMem (cps.flatMap utf8Encode))
        (iArgBufSize (cps.flatMap utf8Encode)) (iArgBufSize (cps.flatMap utf8Encode))
      = ⟨(cps.flatMap utf16Encode ++ [0]).length, cps.flatMap utf16Encode ++ [0], 0⟩ := by
  have hnz : ∀ b ∈ cps.flatMap utf8Encode, b ≠ 0 := by
    intro b hb
    obtain ⟨c, hc, hbc⟩ := List.mem_flatMap.1 hb
    exact utf8Encode_ne_zero c (hcps c hc).2 b hbc
  have hlen := lstrlen_cstrMem _ hnz
  have hwin := window_eq (cps.flatMap utf8Encode)
  rw [List.takeWhile_eq_self_iff.2 (by simpa using hnz)] at hwin
  have henc : cps.flatMap utf8Encode ++ [0] = (cps ++ [0]).flatMap utf8Encode := by
    simp [utf8Encode]
  have hdec : utf8Decode (cps.flatMap utf8Encode ++ [0]) = some (cps ++ [0]) := by
    rw [henc]
    apply utf8Decode_flatMap
    intro c hc
    rcases List.mem_append.1 hc with h | h
    · exact (hcps c h).1
    · simp at h; rw [h]; rfl
  have hunits : (cps ++ [0]).flatMap utf16Encode = cps.flatMap utf16Encode ++ [0] := by
    simp [utf16Encode]
  have hfit : (cps.flatMap utf16Encode ++ [0]).length ≤ iArgBufSize (cps.flatMap utf8Encode) := by
    have := flatMap_utf16_le_utf8 cps
    simp only [iArgBufSize, hlen, List.length_append, List.length_singleton]
    omega
  have hcb : iArgBufSize (cps.flatMap utf8Encode) ≠ 0 := by simp [iArgBufSize]
  unfold refMultiByteToWideChar
  rw [if_neg hcb, hwin, hdec]
  simp only [hunits, hfit, if_true]

theorem refConv_success (s : List Nat)
    (h : (refMultiByteToWideChar CP_UTF8 0 (cstrMem s) (lstrlen (cstrMem s) + 1)
      (lstrlen (cstrMem s) + 1)).n ≠ 0) :
    ∃ ws, refMultiByteToWideChar CP_UTF8 0 (cstrMem s) (lstrlen (cstrMem s) + 1)
        (lstrlen (cstrMem s) + 1) = ⟨ws.length + 1, ws ++ [0], 0⟩ := by
  have hcb : lstrlen (cstrMem s) + 1 ≠ 0 := by simp
  have hwin : (cstrMem s).take (lstrlen (cstrMem s) + 1)
      = s.takeWhile (fun b => b != 0) ++ [0] := window_eq s
  unfold refMultiByteToWideChar at h ⊢
  rw [if_neg hcb, hwin] at h ⊢
  cases hd : utf8Decode (List.takeWhile (fun b => b != 0) s ++ [0]) with
  | none => simp [hd] at h
  | some cps =>
    obtain ⟨cps1, rfl⟩ := utf8DecodeFrom_ends_zero _ 0 0 0 cps hd
    have hunits : (cps1 ++ [0]).flatMap utf16Encode = cps1.flatMap utf16Encode ++ [0] := by
      simp [utf16Encode]
    simp only [hd, hunits] at h ⊢
    split_ifs at h ⊢ with hfit
    · exact ⟨cps1.flatMap utf16Encode, by simp⟩
    · simp at h

theorem convertedArgv_get (env : Env) (pre : List (List Nat)) (s : List Nat)
    (post : List (List Nat)) :
    (convertedArgv env (pre ++ s :: post))[pre.length]? = some (some (convertArg env s).out) := by
  have hget : ∀ (l1 : List (Option (List Nat))) (x : Option (List Nat))
      (l2 : List (Option (List Nat))) (n : Nat), n = l1.length →
      (l1 ++ x :: l2)[n]? = some x := by
    intro l1 x l2 n hn
    subst hn
    induction l1 with
    | nil => simp
    | cons y ys ih => simpa using ih
  simp only [convertedArgv, List.map_append, List.map_cons, List.append_assoc, List.cons_append]
  exact hget _ _ _ _ (by simp)

/-- The success path seen from the argument at index `pre.length`: the trace of
the call holds the events of the loop pass for that argument. -/
theorem run_success_at (env : Env) (iMode : Int) (pszCommand : List Nat)
    (pre : List (List Nat)) (s : List Nat) (post : List (List Nat)) (w : World)
    (hp : (convertPath env pszCommand).n ≠ 0)
    (hm : ∀ j, j ≤ (pre ++ s :: post).length → env.mallocOk (w.mallocCalls + j) = true)
    (hc : ∀ t ∈ pre ++ s :: post, (convertArg env t).n ≠ 0) :
    ∃ p w2 evsBefore evsAfter,
      _spawnvpU env iMode pszCommand (pre ++ s :: post) w
        = .ok (env._wspawnvp iMode (convertPath env pszCommand).out
            (convertedArgv env (pre ++ s :: post)), w2)
      ∧ p ≠ 0
      ∧ w2.trace = w.trace ++ (evsBefore ++ argEvents env pre.length s p ++ evsAfter)
      ∧ spawnCalls (evsBefore ++ argEvents env pre.length s p ++ evsAfter)
        = [(iMode, (convertPath env pszCommand).out, convertedArgv env (pre ++ s :: post))] := by
  obtain ⟨a, bufs, w2, before, after, hrun, _, _, ht, hbefore, hlen, _, hfr, ⟨_, _, hs, _⟩,
    ⟨_, _, hs2, _⟩⟩ := run_success env iMode pszCommand (pre ++ s :: post) w hp hm hc
  obtain ⟨ps, p, qs, hb, hpl, hle⟩ := loopEvents_mid env s post pre 0 bufs hlen
  have heq : (Event.pathConv (cstrMem pszCommand) env.PATH_MAX (convertPath env pszCommand).n
        :: Event.malloc (((pre ++ s :: post).length + 1) * env.sizeofPtr) a
        :: loopEvents env 0 pre ps) ++ argEvents env pre.length s p
        ++ (loopEvents env (pre.length + 1) post qs
          ++ [Event.write (pre ++ s :: post).length 0]
          ++ [Event.spawn iMode (convertPath env pszCommand).out
                (convertedArgv env (pre ++ s :: post))] ++ after)
      = before ++ [Event.spawn iMode (convertPath env pszCommand).out
          (convertedArgv env (pre ++ s :: post))] ++ after := by
    rw [hbefore, hle]
    simp only [Nat.zero_add, List.append_assoc, List.cons_append, List.nil_append]
  refine ⟨p, w2,
    Event.pathConv (cstrMem pszCommand) env.PATH_MAX (convertPath env pszCommand).n
      :: Event.malloc (((pre ++ s :: post).length + 1) * env.sizeofPtr) a
      :: loopEvents env 0 pre ps,
    loopEvents env (pre.length + 1) post qs
      ++ [Event.write (pre ++ s :: post).length 0]
      ++ [Event.spawn iMode (convertPath env pszCommand).out
            (convertedArgv env (pre ++ s :: post))] ++ after,
    hrun, (hfr p (by rw [hb]; simp)).1, ?_, ?_⟩
  · rw [heq, ht]; simp
  · rw [heq]
    simp only [spawnCalls_append, hs, hs2]
    simp [spawnCalls]

/-! ## The claims -/

/-- C1. Success path: when `MultiByteToWidePath(CP_UTF8, pszCommand, wszCommand,
PATH_MAX)` succeeds, the `N + 1` allocations succeed and, for every argument,
`MultiByteToWideChar(CP_UTF8, 0, argv[i], lstrlen(argv[i]) + 1, wszArgv[i],
lstrlen(argv[i]) + 1)` succeeds, the call makes exactly these conversions, the
path first and then the arguments in order, and calls `_wspawnvp` exactly once,
with the mode unchanged, the wide path that the path conversion wrote, and the
array made of what the conversions of `argv[0]`, ..., `argv[N-1]` wrote, in
this order, followed by `NULL`; `_spawnvpU` returns the value of that call,
whatever it is. -/
theorem spawnvpU_success (env : Env) (iMode : Int) (pszCommand : List Nat)
    (argv : List (List Nat)) (w : World)
    (hpath : (env.MultiByteToWidePath CP_UTF8 (cstrMem pszCommand) env.PATH_MAX).n ≠ 0)
    (halloc : ∀ j, j ≤ argv.length → env.mallocOk (w.mallocCalls + j) = true)
    (hconv : ∀ s ∈ argv,
      (env.MultiByteToWideChar CP_UTF8 0 (cstrMem s) (lstrlen (cstrMem s) + 1)
        (lstrlen (cstrMem s) + 1)).n ≠ 0) :
    ∃ w2 evs tl,
      _spawnvpU env iMode pszCommand argv w
        = .ok (env._wspawnvp iMode
            (env.MultiByteToWidePath CP_UTF8 (cstrMem pszCommand) env.PATH_MAX).out
            (argv.map (fun s => some
              (env.MultiByteToWideChar CP_UTF8 0 (cstrMem s) (lstrlen (cstrMem s) + 1)
              (lstrlen (cstrMem s) + 1)).out) ++ [none]), w2)
      ∧ w2.trace = w.trace ++ evs
      ∧ evs = Event.pathConv (cstrMem pszCommand) env.PATH_MAX
            (env.MultiByteToWidePath CP_UTF8 (cstrMem pszCommand) env.PATH_MAX).n :: tl
      ∧ convCalls evs = argv.map (fun s =>
          (cstrMem s, lstrlen (cstrMem s) + 1, lstrlen (cstrMem s) + 1,
            (env.MultiByteToWideChar CP_UTF8 0 (cstrMem s) (lstrlen (cstrMem s) + 1)
              (lstrlen (cstrMem s) + 1)).n))
      ∧ spawnCalls evs = [(iMode,
          (env.MultiByteToWidePath CP_UTF8 (cstrMem pszCommand) env.PATH_MAX).out,
          argv.map (fun s => some
            (env.MultiByteToWideChar CP_UTF8 0 (cstrMem s) (lstrlen (cstrMem s) + 1)
              (lstrlen (cstrMem s) + 1)).out) ++ [none])] := by
  obtain ⟨a, bufs, w2, before, after, hrun, _, _, ht, hbefore, _, _, _, ⟨_, _, hs, hcc, _⟩,
    ⟨_, _, hs2, hcc2, _⟩⟩ := run_success env iMode pszCommand argv w hpath halloc hconv
  refine ⟨w2, before ++ [Event.spawn iMode (convertPath env pszCommand).out
    (convertedArgv env argv)] ++ after,
    Event.malloc ((argv.length + 1) * env.sizeofPtr) a
      :: (loopEvents env 0 argv bufs ++ [Event.write argv.length 0])
      ++ [Event.spawn iMode (convertPath env pszCommand).out (convertedArgv env argv)]
      ++ after,
    hrun, by simp [ht], ?_, ?_, ?_⟩
  · rw [hbefore]; simp [convertPath]
  · simp only [convCalls_append, hcc, hcc2]
    simp [convCalls, convRecord, convertArg, iArgBufSize]
  · simp only [spawnCalls_append, hs, hs2]
    simp [spawnCalls, convertedArgv, convertPath, convertArg, iArgBufSize]

theorem spawnvpU_success_witness :
    ∃ w2 evs tl,
      _spawnvpU (sampleEnv (fun _ => true) (fun _ => true)) 1 [99] [[97], [98, 98]] World.empty
        = .ok ((sampleEnv (fun _ => true) (fun _ => true))._wspawnvp 1
            ((sampleEnv (fun _ => true) (fun _ => true)).MultiByteToWidePath CP_UTF8 (cstrMem [99]) (sampleEnv (fun _ => true) (fun _ => true)).PATH_MAX).out
            ([[97], [98, 98]].map (fun s => some
              ((sampleEnv (fun _ => true) (fun _ => true)).MultiByteToWideChar CP_UTF8 0 (cstrMem s) (lstrlen (cstrMem s) + 1)
              (lstrlen (cstrMem s) + 1)).out) ++ [none]), w2)
      ∧ w2.trace = World.empty.trace ++ evs
      ∧ evs = Event.pathConv (cstrMem [99]) (sampleEnv (fun _ => true) (fun _ => true)).PATH_MAX
            ((sampleEnv (fun _ => true) (fun _ => true)).MultiByteToWidePath CP_UTF8 (cstrMem [99]) (sampleEnv (fun _ => true) (fun _ => true)).PATH_MAX).n :: tl
      ∧ convCalls evs = [[97], [98, 98]].map (fun s =>
          (cstrMem s, lstrlen (cstrMem s) + 1, lstrlen (cstrMem s) + 1,
            ((sampleEnv (fun _ => true) (fun _ => true)).MultiByteToWideChar CP_UTF8 0 (cstrMem s) (lstrlen (cstrMem s) + 1)
              (lstrlen (cstrMem s) + 1)).n))
      ∧ spawnCalls evs = [(1,
          ((sampleEnv (fun _ => true) (fun _ => true)).MultiByteToWidePath CP_UTF8 (cstrMem [99]) (sampleEnv (fun _ => true) (fun _ => true)).PATH_MAX).out,
          [[97], [98, 98]].map (fun s => some
            ((sampleEnv (fun _ => true) (fun _ => true)).MultiByteToWideChar CP_UTF8 0 (cstrMem s) (lstrlen (cstrMem s) + 1)
              (lstrlen (cstrMem s) + 1)).out) ++ [none])] :=
  spawnvpU_success (sampleEnv (fun _ => true) (fun _ => true)) 1 [99] [[97], [98, 98]]
    World.empty (by decide) (fun _ _ => rfl) (by decide)

/-- C2. Path-conversion failure: when `MultiByteToWidePath` returns 0 the call
returns -1 with `errno` set to `Win32ErrorToErrno()`; the conversion of the path
is the only step taken, so nothing is allocated and no argument is converted. -/
theorem spawnvpU_path_conversion_failure (env : Env) (iMode : Int) (pszCommand : List Nat)
    (argv : List (List Nat)) (w : World) (hfail : (convertPath env pszCommand).n = 0) :
    ∃ w2, _spawnvpU env iMode pszCommand argv w = .ok (-1, w2)
      ∧ w2.errno = env.Win32ErrorToErrno (convertPath env pszCommand).lastError
      ∧ w2.trace = w.trace ++ [Event.pathConv (cstrMem pszCommand) env.PATH_MAX 0]
      ∧ w2.live = w.live ∧ w2.mallocCalls = w.mallocCalls ∧ w2.store = w.store :=
  ⟨_, run_pathFail env iMode pszCommand argv w hfail, rfl, rfl, rfl, rfl, rfl⟩

theorem spawnvpU_path_conversion_failure_witness :
    (convertPath { sampleEnv (fun _ => true) (fun _ => true) with PATH_MAX := 1 } [99, 99]).n = 0
    ∧ ∃ w2, _spawnvpU { sampleEnv (fun _ => true) (fun _ => true) with PATH_MAX := 1 } 1
          [99, 99] [[97]] World.empty = .ok (-1, w2)
      ∧ w2.errno = 22
      ∧ w2.trace = [Event.pathConv [99, 99, 0] 1 0]
      ∧ w2.live = [] ∧ w2.mallocCalls = 0 ∧ w2.store = [] :=
  ⟨by decide, spawnvpU_path_conversion_failure
    { sampleEnv (fun _ => true) (fun _ => true) with PATH_MAX := 1 } 1 [99, 99] [[97]]
    World.empty (by decide)⟩

/-- C3. No process is created on a local failure. Every call returns; it calls
`_wspawnvp` at most once; if the path conversion fails, or one of the `malloc`
calls fails, or the conversion of some argument fails, the call returns -1 and
`_wspawnvp` is not called at all; and when `_wspawnvp` is called, everything
before that call contains no other call of it and the successful conversion of
every argument, and nothing after it converts or spawns. -/
theorem spawnvpU_no_spawn_on_local_failure (env : Env) (iMode : Int) (pszCommand : List Nat)
    (argv : List (List Nat)) (w : World) :
    ∃ r w2 evs, _spawnvpU env iMode pszCommand argv w = .ok (r, w2)
      ∧ w2.trace = w.trace ++ evs
      ∧ (spawnCalls evs).length ≤ 1
      ∧ (((convertPath env pszCommand).n = 0
            ∨ (∃ j, j ≤ argv.length ∧ env.mallocOk (w.mallocCalls + j) = false)
            ∨ (∃ s ∈ argv, (convertArg env s).n = 0))
          → r = -1 ∧ spawnCalls evs = [])
      ∧ (spawnCalls evs ≠ [] →
          ∃ before call after, evs = before ++ [call] ++ after
            ∧ call = Event.spawn iMode (convertPath env pszCommand).out
                (argv.map (fun s => some (convertArg env s).out) ++ [none])
            ∧ spawnCalls before = [] ∧ spawnCalls after = []
            ∧ convCalls before = argv.map (convRecord env)
            ∧ (∀ s ∈ argv, (convertArg env s).n ≠ 0)
            ∧ convCalls after = []) := by
  rcases run_cases env pszCommand argv w with hp | ⟨hp, hm⟩
    | ⟨pre, s, post, he, hp, hm, hc, hf⟩ | ⟨pre, s, post, he, hp, hm, hc, hf⟩ | ⟨hp, hm, hc⟩
  · exact ⟨-1, _, [Event.pathConv (cstrMem pszCommand) env.PATH_MAX 0],
      run_pathFail env iMode pszCommand argv w hp, rfl, by simp [spawnCalls],
      fun _ => ⟨rfl, by simp [spawnCalls]⟩, fun h => absurd (by simp [spawnCalls]) h⟩
  · exact ⟨-1, _, [Event.pathConv (cstrMem pszCommand) env.PATH_MAX
        (convertPath env pszCommand).n, Event.malloc ((argv.length + 1) * env.sizeofPtr) 0],
      run_arrayAllocFail env iMode pszCommand argv w hp hm, rfl, by simp [spawnCalls],
      fun _ => ⟨rfl, by simp [spawnCalls]⟩, fun h => absurd (by simp [spawnCalls]) h⟩
  · obtain ⟨a, bufs, w2, evs, hrun, _, _, ht, _, _, _, _, _, _, hs, _⟩ :=
      run_argAllocFail env iMode pszCommand pre s post w hp hm hc hf
    rw [he]
    exact ⟨-1, w2, evs, hrun, ht, by simp [hs], fun _ => ⟨rfl, hs⟩, fun h => absurd hs h⟩
  · obtain ⟨a, bufs, w2, evs, hrun, _, _, ht, _, _, _, _, _, _, hs, _⟩ :=
      run_argConvFail env iMode pszCommand pre s post w hp hm hc hf
    rw [he]
    exact ⟨-1, w2, evs, hrun, ht, by simp [hs], fun _ => ⟨rfl, hs⟩, fun h => absurd hs h⟩
  · obtain ⟨a, bufs, w2, before, after, hrun, _, _, ht, _, _, _, _, ⟨_, _, hs, hcc, _⟩,
      ⟨_, _, hs2, hcc2, _⟩⟩ := run_success env iMode pszCommand argv w hp hm hc
    have hsp : spawnCalls (before ++ [Event.spawn iMode (convertPath env pszCommand).out
        (convertedArgv env argv)] ++ after)
        = [(iMode, (convertPath env pszCommand).out, convertedArgv env argv)] := by
      simp only [spawnCalls_append, hs, hs2]
      simp [spawnCalls]
    refine ⟨_, w2, before ++ [Event.spawn iMode (convertPath env pszCommand).out
      (convertedArgv env argv)] ++ after, hrun, by simp [ht], by rw [hsp]; simp, ?_, ?_⟩
    · rintro (h | ⟨j, hj, h⟩ | ⟨s, hs, h⟩)
      · exact absurd h hp
      · rw [hm j hj] at h; exact absurd h (by simp)
      · exact absurd h (hc s hs)
    · intro _
      exact ⟨before, _, after, rfl, rfl, hs, hs2, hcc, hc, hcc2⟩

/-- C4. Allocation balance when `_wspawnvp` is reached: the call makes exactly
`N + 1` allocations, the array first and then one buffer per argument, all of
them distinct new blocks; nothing is freed before `_wspawnvp` is called; after
it returns, whatever it returns, exactly these `N + 1` blocks are freed, each
once; and the live blocks on return are those on entry. -/
theorem spawnvpU_allocation_balance (env : Env) (iMode : Int) (pszCommand : List Nat)
    (argv : List (List Nat)) (w : World)
    (hpath : (convertPath env pszCommand).n ≠ 0)
    (halloc : ∀ j, j ≤ argv.length → env.mallocOk (w.mallocCalls + j) = true)
    (hconv : ∀ s ∈ argv, (convertArg env s).n ≠ 0) :
    ∃ w2 before call after blocks,
      _spawnvpU env iMode pszCommand argv w
        = .ok (env._wspawnvp iMode (convertPath env pszCommand).out
                 (argv.map (fun s => some (convertArg env s).out) ++ [none]), w2)
      ∧ w2.trace = w.trace ++ (before ++ [call] ++ after)
      ∧ call = Event.spawn iMode (convertPath env pszCommand).out
          (argv.map (fun s => some (convertArg env s).out) ++ [none])
      ∧ mallocResults (before ++ [call] ++ after) = blocks
      ∧ blocks.length = argv.length + 1 ∧ blocks.Nodup
      ∧ (∀ b ∈ blocks, b ≠ 0 ∧ b ∉ w.live)
      ∧ freed before = []
      ∧ (freed after).Perm blocks
      ∧ freed (before ++ [call] ++ after) = freed after
      ∧ w2.live = w.live := by
  obtain ⟨a, bufs, w2, before, after, hrun, hl, _, ht, _, hlen, hnd, hfr, ⟨hmr, hf, _⟩,
    ⟨hmr2, hf2, _⟩⟩ := run_success env iMode pszCommand argv w hpath halloc hconv
  refine ⟨w2, before, _, after, a :: bufs, hrun, by simp [ht, convertedArgv], rfl, ?_,
    by simp [hlen], hnd, hfr,
    hf, ?_, ?_, hl⟩
  · simp only [mallocResults_append, hmr, hmr2]; simp [mallocResults]
  · rw [hf2]
    exact (List.perm_append_singleton a bufs.reverse).trans
      (List.Perm.cons a (List.reverse_perm bufs))
  · simp only [freed_append, hf]; simp [freed]

theorem spawnvpU_allocation_balance_witness :
    ∃ w2 before call after blocks,
      _spawnvpU (sampleEnv (fun _ => true) (fun _ => true)) 0 [99] [[97], [98, 98]] World.empty
        = .ok ((sampleEnv (fun _ => true) (fun _ => true))._wspawnvp 0
            (convertPath (sampleEnv (fun _ => true) (fun _ => true)) [99]).out
            ([[97], [98, 98]].map
              (fun s => some (convertArg (sampleEnv (fun _ => true) (fun _ => true)) s).out)
              ++ [none]), w2)
      ∧ w2.trace = World.empty.trace ++ (before ++ [call] ++ after)
      ∧ call = Event.spawn 0 (convertPath (sampleEnv (fun _ => true) (fun _ => true)) [99]).out
          ([[97], [98, 98]].map
            (fun s => some (convertArg (sampleEnv (fun _ => true) (fun _ => true)) s).out)
            ++ [none])
      ∧ mallocResults (before ++ [call] ++ after) = blocks
      ∧ blocks.length = [[97], [98, 98]].length + 1 ∧ blocks.Nodup
      ∧ (∀ b ∈ blocks, b ≠ 0 ∧ b ∉ World.empty.live)
      ∧ freed before = []
      ∧ (freed after).Perm blocks
      ∧ freed (before ++ [call] ++ after) = freed after
      ∧ w2.live = World.empty.live :=
  spawnvpU_allocation_balance (sampleEnv (fun _ => true) (fun _ => true)) 0 [99]
    [[97], [98, 98]] World.empty (by decide) (fun _ _ => rfl) (by decide)

/-- C5, as stated, fails. With one argument whose conversion fails (so `k = 0`
and this conversion is the first step to fail), the call has obtained two
blocks from `malloc`: the array `1` and the buffer `2`, which it stored in
`wszArgv[0]` before converting argument 0 into it. -/
theorem spawnvpU_arg_conversion_failure_counterexample :
    (convertPath (sampleEnv (fun _ => false) (fun _ => true)) [99]).n ≠ 0
    ∧ (sampleEnv (fun _ => false) (fun _ => true)).mallocOk 0 = true
    ∧ (sampleEnv (fun _ => false) (fun _ => true)).mallocOk 1 = true
    ∧ (convertArg (sampleEnv (fun _ => false) (fun _ => true)) [97]).n = 0
    ∧ (_spawnvpU (sampleEnv (fun _ => false) (fun _ => true)) 1 [99] [[97]]
          World.empty).toOption.map
        (fun x => (x.1, mallocResults x.2.trace, writes x.2.trace, freed x.2.trace))
      = some (-1, [1, 2], [(0, 2)], [2, 1]) := by
  decide

/-- C5, amended. When the conversion of argument `k` is the first step to fail,
the call has obtained the array and exactly `k + 1` buffers, one for each of the
arguments `0..k` (buffer `j` is the one stored in `wszArgv[j]`); it has
converted the arguments `0..k` and no other; and it frees each of the `k + 1`
buffers once, from `k` down to `0`, and then the array. No buffer exists for
the arguments `k+1..N-1`. -/
theorem spawnvpU_arg_conversion_failure (env : Env) (iMode : Int) (pszCommand : List Nat)
    (pre : List (List Nat)) (s : List Nat) (post : List (List Nat)) (w : World)
    (hpath : (convertPath env pszCommand).n ≠ 0)
    (halloc : ∀ j, j ≤ pre.length + 1 → env.mallocOk (w.mallocCalls + j) = true)
    (hconv : ∀ t ∈ pre, (convertArg env t).n ≠ 0)
    (hfail : (convertArg env s).n = 0) :
    ∃ a bufs w2 evs,
      _spawnvpU env iMode pszCommand (pre ++ s :: post) w = .ok (-1, w2)
      ∧ w2.trace = w.trace ++ evs
      ∧ mallocResults evs = a :: bufs
      ∧ bufs.length = pre.length + 1
      ∧ (a :: bufs).Nodup ∧ (∀ b ∈ a :: bufs, b ≠ 0 ∧ b ∉ w.live)
      ∧ writes evs = bufs.enum
      ∧ convCalls evs = (pre ++ [s]).map (convRecord env)
      ∧ freed evs = bufs.reverse ++ [a]
      ∧ w2.live = w.live := by
  obtain ⟨a, bufs, w2, evs, hrun, hl, _, ht, _, hlen, hnd, hfr, hmr, hf, _, hcc, hw, _⟩ :=
    run_argConvFail env iMode pszCommand pre s post w hpath halloc hconv hfail
  exact ⟨a, bufs, w2, evs, hrun, ht, hmr, hlen, hnd, hfr, hw, hcc, hf, hl⟩

theorem spawnvpU_arg_conversion_failure_witness :
    ∃ a bufs w2 evs,
      _spawnvpU (sampleEnv (fun s => s != [98, 0]) (fun _ => true)) 1 [99]
          ([[97]] ++ [98] :: [[100]]) World.empty = .ok (-1, w2)
      ∧ w2.trace = World.empty.trace ++ evs
      ∧ mallocResults evs = a :: bufs
      ∧ bufs.length = [[97]].length + 1
      ∧ (a :: bufs).Nodup ∧ (∀ b ∈ a :: bufs, b ≠ 0 ∧ b ∉ World.empty.live)
      ∧ writes evs = bufs.enum
      ∧ convCalls evs = ([[97]] ++ [[98]]).map
          (convRecord (sampleEnv (fun s => s != [98, 0]) (fun _ => true)))
      ∧ freed evs = bufs.reverse ++ [a]
      ∧ w2.live = World.empty.live :=
  spawnvpU_arg_conversion_failure (sampleEnv (fun s => s != [98, 0]) (fun _ => true)) 1 [99]
    [[97]] [98] [[100]] World.empty (by decide) (fun _ _ => rfl) (by decide) (by decide)

/-- C6. Cleanup on a failure inside the loop: when the allocation of the buffer
of argument `k` fails, or the conversion of argument `k` fails, the call returns
-1 after freeing, each exactly once, every block it obtained from `malloc`
(the buffers and the array) and nothing else; the live blocks on return are
those on entry. -/
theorem spawnvpU_midloop_cleanup (env : Env) (iMode : Int) (pszCommand : List Nat)
    (pre : List (List Nat)) (s : List Nat) (post : List (List Nat)) (w : World)
    (hpath : (convertPath env pszCommand).n ≠ 0)
    (halloc : ∀ j, j ≤ pre.length → env.mallocOk (w.mallocCalls + j) = true)
    (hconv : ∀ t ∈ pre, (convertArg env t).n ≠ 0)
    (hfail : env.mallocOk (w.mallocCalls + pre.length + 1) = false
      ∨ (convertArg env s).n = 0) :
    ∃ w2 evs blocks,
      _spawnvpU env iMode pszCommand (pre ++ s :: post) w = .ok (-1, w2)
      ∧ w2.trace = w.trace ++ evs
      ∧ (mallocResults evs).filter (fun p => p != 0) = blocks
      ∧ blocks.Nodup ∧ (∀ b ∈ blocks, b ∉ w.live)
      ∧ (freed evs).Perm blocks
      ∧ spawnCalls evs = []
      ∧ w2.live = w.live := by
  have hperm : ∀ (a : Nat) (bufs : List Nat), (bufs.reverse ++ [a]).Perm (a :: bufs) :=
    fun a bufs => (List.perm_append_singleton a bufs.reverse).trans
      (List.Perm.cons a (List.reverse_perm bufs))
  have hfilter : ∀ (l : List Nat), (∀ b ∈ l, b ≠ 0) → l.filter (fun p => p != 0) = l :=
    fun l h => List.filter_eq_self.2 (fun b hb => by simpa using h b hb)
  by_cases hk : env.mallocOk (w.mallocCalls + pre.length + 1) = true
  · have hc : (convertArg env s).n = 0 := by
      rcases hfail with h | h
      · rw [hk] at h; exact absurd h (by simp)
      · exact h
    obtain ⟨a, bufs, w2, evs, hrun, hl, _, ht, _, _, hnd, hfr, hmr, hf, hs, _⟩ :=
      run_argConvFail env iMode pszCommand pre s post w hpath
        (fun j hj => by
          rcases Nat.lt_succ_iff_lt_or_eq.1 (Nat.lt_succ_of_le hj) with h | h
          · exact halloc j (by omega)
          · rw [h, ← Nat.add_assoc]; exact hk)
        hconv hc
    refine ⟨w2, evs, a :: bufs, hrun, ht, ?_, hnd, fun b hb => (hfr b hb).2, ?_, hs, hl⟩
    · rw [hmr]; exact hfilter _ (fun b hb => (hfr b hb).1)
    · rw [hf]; exact hperm a bufs
  · obtain ⟨a, bufs, w2, evs, hrun, hl, _, ht, _, _, hnd, hfr, hmr, hf, hs, _⟩ :=
      run_argAllocFail env iMode pszCommand pre s post w hpath halloc hconv (by simpa using hk)
    refine ⟨w2, evs, a :: bufs, hrun, ht, ?_, hnd, fun b hb => (hfr b hb).2, ?_, hs, hl⟩
    · rw [hmr]
      have : a :: bufs ++ [0] = (a :: bufs) ++ [0] := rfl
      rw [this, List.filter_append, hfilter _ (fun b hb => (hfr b hb).1)]
      simp
    · rw [hf]; exact hperm a bufs

theorem spawnvpU_midloop_cleanup_witness :
    ∃ w2 evs blocks,
      _spawnvpU (sampleEnv (fun _ => true) (fun k => k != 2)) 1 [99]
          ([[97]] ++ [98] :: [[100]]) World.empty = .ok (-1, w2)
      ∧ w2.trace = World.empty.trace ++ evs
      ∧ (mallocResults evs).filter (fun p => p != 0) = blocks
      ∧ blocks.Nodup ∧ (∀ b ∈ blocks, b ∉ World.empty.live)
      ∧ (freed evs).Perm blocks
      ∧ spawnCalls evs = []
      ∧ w2.live = World.empty.live :=
  spawnvpU_midloop_cleanup (sampleEnv (fun _ => true) (fun k => k != 2)) 1 [99]
    [[97]] [98] [[100]] World.empty (by decide)
    (fun j hj => by
      have hj1 : j ≤ 1 := hj
      interval_cases j <;> rfl)
    (by decide) (Or.inl rfl)

/-- C7. Empty argument list: the array is allocated with one slot, the only
store into it is the `NULL` sentinel at index 0, no buffer is allocated, and
`_wspawnvp` is called with an argument array that holds the sentinel only. -/
theorem spawnvpU_empty_argument_list (env : Env) (iMode : Int) (pszCommand : List Nat)
    (w : World) (hpath : (convertPath env pszCommand).n ≠ 0)
    (halloc : env.mallocOk w.mallocCalls = true) :
    ∃ a w2, a ≠ 0 ∧ a ∉ w.live
      ∧ _spawnvpU env iMode pszCommand [] w
        = .ok (env._wspawnvp iMode (convertPath env pszCommand).out [none], w2)
      ∧ w2.trace = w.trace
          ++ [Event.pathConv (cstrMem pszCommand) env.PATH_MAX (convertPath env pszCommand).n,
              Event.malloc (1 * env.sizeofPtr) a,
              Event.write 0 0,
              Event.spawn iMode (convertPath env pszCommand).out [none],
              Event.free a]
      ∧ w2.live = w.live := by
  have hmal := malloc_ok env ((0 + 1) * env.sizeofPtr)
    { w with lastError := (convertPath env pszCommand).lastError,
             trace := w.trace ++ [Event.pathConv (cstrMem pszCommand) env.PATH_MAX
               (convertPath env pszCommand).n] } halloc
  dsimp only at hmal
  refine ⟨freshPtr w.live,
    { w with lastError := (convertPath env pszCommand).lastError,
             mallocCalls := w.mallocCalls + 1,
             trace := w.trace
               ++ [Event.pathConv (cstrMem pszCommand) env.PATH_MAX
                     (convertPath env pszCommand).n,
                   Event.malloc (1 * env.sizeofPtr) (freshPtr w.live),
                   Event.write 0 0,
                   Event.spawn iMode (convertPath env pszCommand).out [none],
                   Event.free (freshPtr w.live)] },
    freshPtr_ne_zero _, freshPtr_not_mem _, ?_, rfl, rfl⟩
  unfold _spawnvpU
  simp only [hpath, if_false, countArgs]
  rw [hmal]
  simp [convertArgs, writeSlot, argvView, freeBelow, free, freshPtr_ne_zero, World.log, bind,
    Except.bind, pure, Except.pure]

theorem spawnvpU_empty_argument_list_witness :
    ∃ a w2, a ≠ 0 ∧ a ∉ World.empty.live
      ∧ _spawnvpU (sampleEnv (fun _ => true) (fun _ => true)) 1 [99] [] World.empty
        = .ok ((sampleEnv (fun _ => true) (fun _ => true))._wspawnvp 1
            (convertPath (sampleEnv (fun _ => true) (fun _ => true)) [99]).out [none], w2)
      ∧ w2.trace = World.empty.trace
          ++ [Event.pathConv (cstrMem [99]) (sampleEnv (fun _ => true) (fun _ => true)).PATH_MAX
                (convertPath (sampleEnv (fun _ => true) (fun _ => true)) [99]).n,
              Event.malloc (1 * (sampleEnv (fun _ => true) (fun _ => true)).sizeofPtr) a,
              Event.write 0 0,
              Event.spawn 1 (convertPath (sampleEnv (fun _ => true) (fun _ => true)) [99]).out
                [none],
              Event.free a]
      ∧ w2.live = World.empty.live :=
  spawnvpU_empty_argument_list (sampleEnv (fun _ => true) (fun _ => true)) 1 [99] World.empty
    (by decide) rfl

/-- C8. Per-argument buffer sizing is sufficient. No code point needs more
UTF-16 units than UTF-8 bytes. Hence for an argument that is the UTF-8 encoding,
`L` bytes long, of a string of non-zero scalar values, the UTF-16 encoding with
its terminating `NUL` has at most `L + 1` units, and the reference conversion
with `cbMultiByte = cchWideChar = L + 1` succeeds. In a call of `_spawnvpU`
with this argument at index `k` (the other steps succeeding), the trace shows
the code allocating `sizeof(WCHAR) * (L + 1)` bytes for the buffer `p` of that
argument, storing `p` in `wszArgv[k]`, and converting `L + 1` bytes into `p`
with capacity `L + 1` wide characters; the conversion returns the number of
units of the encoding with its `NUL`, which fit the bytes allocated; the call
does not fail, and `_wspawnvp` receives the encoding at index `k`. -/
theorem argument_buffer_is_sufficient (env : Env) (iMode : Int) (pszCommand : List Nat)
    (pre post : List (List Nat)) (cps : List Nat) (w : World)
    (href : env.MultiByteToWideChar = refMultiByteToWideChar)
    (hpath : (env.MultiByteToWidePath CP_UTF8 (cstrMem pszCommand) env.PATH_MAX).n ≠ 0)
    (halloc : ∀ j, j ≤ (pre ++ cps.flatMap utf8Encode :: post).length →
      env.mallocOk (w.mallocCalls + j) = true)
    (hconv : ∀ t ∈ pre ++ post,
      (refMultiByteToWideChar CP_UTF8 0 (cstrMem t) (lstrlen (cstrMem t) + 1)
        (lstrlen (cstrMem t) + 1)).n ≠ 0)
    (hcps : ∀ c ∈ cps, isScalarValue c = true ∧ c ≠ 0) :
    (∀ c : Nat, (utf16Encode c).length ≤ (utf8Encode c).length)
    ∧ lstrlen (cstrMem (cps.flatMap utf8Encode)) = (cps.flatMap utf8Encode).length
    ∧ (cps.flatMap utf16Encode ++ [0]).length ≤ (cps.flatMap utf8Encode).length + 1
    ∧ refMultiByteToWideChar CP_UTF8 0 (cps.flatMap utf8Encode ++ [0])
          ((cps.flatMap utf8Encode).length + 1) ((cps.flatMap utf8Encode).length + 1)
        = ⟨(cps.flatMap utf16Encode ++ [0]).length, cps.flatMap utf16Encode ++ [0], 0⟩
    ∧ ∃ p w2 evsBefore evsAfter args,
        _spawnvpU env iMode pszCommand (pre ++ cps.flatMap utf8Encode :: post) w
          = .ok (env._wspawnvp iMode
              (env.MultiByteToWidePath CP_UTF8 (cstrMem pszCommand) env.PATH_MAX).out args, w2)
        ∧ args[pre.length]? = some (some (cps.flatMap utf16Encode ++ [0]))
        ∧ p ≠ 0
        ∧ w2.trace = w.trace ++ (evsBefore
            ++ [Event.malloc (sizeofWCHAR * ((cps.flatMap utf8Encode).length + 1)) p,
                Event.write pre.length p, Event.read pre.length, Event.read pre.length,
                Event.argConv (cps.flatMap utf8Encode ++ [0]) ((cps.flatMap utf8Encode).length + 1) p
                  ((cps.flatMap utf8Encode).length + 1) (cps.flatMap utf16Encode ++ [0]).length]
            ++ evsAfter)
        ∧ spawnCalls (evsBefore
            ++ [Event.malloc (sizeofWCHAR * ((cps.flatMap utf8Encode).length + 1)) p,
                Event.write pre.length p, Event.read pre.length, Event.read pre.length,
                Event.argConv (cps.flatMap utf8Encode ++ [0]) ((cps.flatMap utf8Encode).length + 1) p
                  ((cps.flatMap utf8Encode).length + 1) (cps.flatMap utf16Encode ++ [0]).length]
            ++ evsAfter)
          = [(iMode, (env.MultiByteToWidePath CP_UTF8 (cstrMem pszCommand) env.PATH_MAX).out,
              args)]
        ∧ sizeofWCHAR * (cps.flatMap utf16Encode ++ [0]).length
            ≤ sizeofWCHAR * ((cps.flatMap utf8Encode).length + 1) := by
  have hnz : ∀ b ∈ cps.flatMap utf8Encode, b ≠ 0 := by
    intro b hb
    obtain ⟨c, hc, hbc⟩ := List.mem_flatMap.1 hb
    exact utf8Encode_ne_zero c (hcps c hc).2 b hbc
  have hlen := lstrlen_cstrMem _ hnz
  have hlen2 : lstrlen (cps.flatMap utf8Encode ++ [0]) = (cps.flatMap utf8Encode).length := hlen
  have hle : (cps.flatMap utf16Encode ++ [0]).length ≤ (cps.flatMap utf8Encode).length + 1 := by
    have := flatMap_utf16_le_utf8 cps
    simp only [List.length_append, List.length_singleton]
    omega
  have href2 : refMultiByteToWideChar CP_UTF8 0 (cps.flatMap utf8Encode ++ [0])
      ((cps.flatMap utf8Encode).length + 1) ((cps.flatMap utf8Encode).length + 1)
      = ⟨(cps.flatMap utf16Encode ++ [0]).length, cps.flatMap utf16Encode ++ [0], 0⟩ := by
    have h := refConv_wellFormed cps hcps
    simp only [iArgBufSize, cstrMem, hlen2] at h
    exact h
  have hcs : convertArg env (cps.flatMap utf8Encode)
      = ⟨(cps.flatMap utf16Encode ++ [0]).length, cps.flatMap utf16Encode ++ [0], 0⟩ := by
    simp only [convertArg, iArgBufSize, cstrMem, hlen2, href, href2]
  have hall : ∀ t ∈ pre ++ cps.flatMap utf8Encode :: post, (convertArg env t).n ≠ 0 := by
    intro t ht
    rcases List.mem_append.1 ht with h | h
    · have := hconv t (by simp [h])
      simpa [convertArg, iArgBufSize, href] using this
    · rcases List.mem_cons.1 h with h | h
      · rw [h, hcs]; simp
      · have := hconv t (by simp [h])
        simpa [convertArg, iArgBufSize, href] using this
  obtain ⟨p, w2, evsBefore, evsAfter, hrun, hp0, ht, hsp⟩ :=
    run_success_at env iMode pszCommand pre (cps.flatMap utf8Encode) post w hpath halloc hall
  have hseg : argEvents env pre.length (cps.flatMap utf8Encode) p
      = [Event.malloc (sizeofWCHAR * ((cps.flatMap utf8Encode).length + 1)) p,
          Event.write pre.length p, Event.read pre.length, Event.read pre.length,
          Event.argConv (cps.flatMap utf8Encode ++ [0]) ((cps.flatMap utf8Encode).length + 1) p
            ((cps.flatMap utf8Encode).length + 1) (cps.flatMap utf16Encode ++ [0]).length] := by
    simp only [argEvents, cstrMem, hlen2, href, href2]
  rw [hseg] at ht hsp
  refine ⟨utf16_le_utf8, hlen, hle, href2, p, w2, evsBefore, evsAfter,
    convertedArgv env (pre ++ cps.flatMap utf8Encode :: post), hrun, ?_, hp0, ht, hsp,
    Nat.mul_le_mul_left _ hle⟩
  rw [convertedArgv_get, hcs]

theorem argument_buffer_is_sufficient_witness :
    (∀ c : Nat, (utf16Encode c).length ≤ (utf8Encode c).length)
    ∧ lstrlen (cstrMem ([0x61, 0xE9, 0x20AC, 0x1F600].flatMap utf8Encode)) = ([0x61, 0xE9, 0x20AC, 0x1F600].flatMap utf8Encode).length
    ∧ ([0x61, 0xE9, 0x20AC, 0x1F600].flatMap utf16Encode ++ [0]).length ≤ ([0x61, 0xE9, 0x20AC, 0x1F600].flatMap utf8Encode).length + 1
    ∧ refMultiByteToWideChar CP_UTF8 0 ([0x61, 0xE9, 0x20AC, 0x1F600].flatMap utf8Encode ++ [0])
          (([0x61, 0xE9, 0x20AC, 0x1F600].flatMap utf8Encode).length + 1) (([0x61, 0xE9, 0x20AC, 0x1F600].flatMap utf8Encode).length + 1)
        = ⟨([0x61, 0xE9, 0x20AC, 0x1F600].flatMap utf16Encode ++ [0]).length, [0x61, 0xE9, 0x20AC, 0x1F600].flatMap utf16Encode ++ [0], 0⟩
    ∧ ∃ p w2 evsBefore evsAfter args,
        _spawnvpU sampleRefEnv 1 [99] ([[97]] ++ [0x61, 0xE9, 0x20AC, 0x1F600].flatMap utf8Encode :: [[98]]) World.empty
          = .ok (sampleRefEnv._wspawnvp 1
              (sampleRefEnv.MultiByteToWidePath CP_UTF8 (cstrMem [99]) sampleRefEnv.PATH_MAX).out args, w2)
        ∧ args[[[97]].length]? = some (some ([0x61, 0xE9, 0x20AC, 0x1F600].flatMap utf16Encode ++ [0]))
        ∧ p ≠ 0
        ∧ w2.trace = World.empty.trace ++ (evsBefore
            ++ [Event.malloc (sizeofWCHAR * (([0x61, 0xE9, 0x20AC, 0x1F600].flatMap utf8Encode).length + 1)) p,
                Event.write [[97]].length p, Event.read [[97]].length, Event.read [[97]].length,
                Event.argConv ([0x61, 0xE9, 0x20AC, 0x1F600].flatMap utf8Encode ++ [0]) (([0x61, 0xE9, 0x20AC, 0x1F600].flatMap utf8Encode).length + 1) p
                  (([0x61, 0xE9, 0x20AC, 0x1F600].flatMap utf8Encode).length + 1) ([0x61, 0xE9, 0x20AC, 0x1F600].flatMap utf16Encode ++ [0]).length]
            ++ evsAfter)
        ∧ spawnCalls (evsBefore
            ++ [Event.malloc (sizeofWCHAR * (([0x61, 0xE9, 0x20AC, 0x1F600].flatMap utf8Encode).length + 1)) p,
                Event.write [[97]].length p, Event.read [[97]].length, Event.read [[97]].length,
                Event.argConv ([0x61, 0xE9, 0x20AC, 0x1F600].flatMap utf8Encode ++ [0]) (([0x61, 0xE9, 0x20AC, 0x1F600].flatMap utf8Encode).length + 1) p
                  (([0x61, 0xE9, 0x20AC, 0x1F600].flatMap utf8Encode).length + 1) ([0x61, 0xE9, 0x20AC, 0x1F600].flatMap utf16Encode ++ [0]).length]
            ++ evsAfter)
          = [(1, (sampleRefEnv.MultiByteToWidePath CP_UTF8 (cstrMem [99]) sampleRefEnv.PATH_MAX).out,
              args)]
        ∧ sizeofWCHAR * ([0x61, 0xE9, 0x20AC, 0x1F600].flatMap utf16Encode ++ [0]).length
            ≤ sizeofWCHAR * (([0x61, 0xE9, 0x20AC, 0x1F600].flatMap utf8Encode).length + 1) :=
  argument_buffer_is_sufficient sampleRefEnv 1 [99] [[97]] [[98]] [0x61, 0xE9, 0x20AC, 0x1F600]
    World.empty rfl (by decide) (fun _ _ => rfl) (by decide) (by decide)

/-- C9. The terminator is converted with the argument. The `lstrlen(s) + 1`
bytes of an argument `s` are the string and its `NUL`. Under the reference
converter a conversion of `lstrlen(t) + 1` bytes that does not return 0 returns
the number of units it wrote, and these end with a `NUL`, so that number is at
least 1. In a call of `_spawnvpU` with `s` at index `k`, where the conversion of
`s` is only assumed to succeed when `s` is not empty (and the other steps
succeed), the trace shows the converter being called on `s` with
`cbMultiByte = lstrlen(s) + 1` and returning the length of the wide string
plus one; the call takes no failure branch and `_wspawnvp` receives what the
converter wrote for each argument, which at index `k` is that wide string with
its `NUL`. For the empty argument the conversion returns 1 and `_wspawnvp`
receives the empty wide string. -/
theorem spawnvpU_terminator_converted (env : Env) (iMode : Int) (pszCommand : List Nat)
    (pre post : List (List Nat)) (w : World) (s : List Nat)
    (href : env.MultiByteToWideChar = refMultiByteToWideChar)
    (hpath : (env.MultiByteToWidePath CP_UTF8 (cstrMem pszCommand) env.PATH_MAX).n ≠ 0)
    (halloc : ∀ j, j ≤ (pre ++ s :: post).length → env.mallocOk (w.mallocCalls + j) = true)
    (hconv : ∀ t ∈ pre ++ post,
      (refMultiByteToWideChar CP_UTF8 0 (cstrMem t) (lstrlen (cstrMem t) + 1)
        (lstrlen (cstrMem t) + 1)).n ≠ 0)
    (hs : s ≠ [] →
      (refMultiByteToWideChar CP_UTF8 0 (cstrMem s) (lstrlen (cstrMem s) + 1)
        (lstrlen (cstrMem s) + 1)).n ≠ 0) :
    (cstrMem s).take (lstrlen (cstrMem s) + 1) = s.takeWhile (fun b => b != 0) ++ [0]
    ∧ (∀ t : List Nat,
        (refMultiByteToWideChar CP_UTF8 0 (cstrMem t) (lstrlen (cstrMem t) + 1)
          (lstrlen (cstrMem t) + 1)).n ≠ 0 →
        ∃ us, refMultiByteToWideChar CP_UTF8 0 (cstrMem t) (lstrlen (cstrMem t) + 1)
          (lstrlen (cstrMem t) + 1) = ⟨us.length + 1, us ++ [0], 0⟩)
    ∧ ∃ ws p w2 evsBefore evsAfter args,
        refMultiByteToWideChar CP_UTF8 0 (cstrMem s) (lstrlen (cstrMem s) + 1)
          (lstrlen (cstrMem s) + 1) = ⟨ws.length + 1, ws ++ [0], 0⟩
        ∧ (s = [] → ws = [])
        ∧ _spawnvpU env iMode pszCommand (pre ++ s :: post) w
          = .ok (env._wspawnvp iMode
              (env.MultiByteToWidePath CP_UTF8 (cstrMem pszCommand) env.PATH_MAX).out args, w2)
        ∧ args = (pre ++ s :: post).map (fun t => some
              (refMultiByteToWideChar CP_UTF8 0 (cstrMem t) (lstrlen (cstrMem t) + 1)
                (lstrlen (cstrMem t) + 1)).out) ++ [none]
        ∧ args[pre.length]? = some (some (ws ++ [0]))
        ∧ w2.trace = w.trace ++ (evsBefore
            ++ [Event.malloc (sizeofWCHAR * (lstrlen (cstrMem s) + 1)) p,
                Event.write pre.length p, Event.read pre.length, Event.read pre.length,
                Event.argConv (cstrMem s) (lstrlen (cstrMem s) + 1) p
                  (lstrlen (cstrMem s) + 1) (ws.length + 1)]
            ++ evsAfter)
        ∧ spawnCalls (evsBefore
            ++ [Event.malloc (sizeofWCHAR * (lstrlen (cstrMem s) + 1)) p,
                Event.write pre.length p, Event.read pre.length, Event.read pre.length,
                Event.argConv (cstrMem s) (lstrlen (cstrMem s) + 1) p
                  (lstrlen (cstrMem s) + 1) (ws.length + 1)]
            ++ evsAfter)
          = [(iMode, (env.MultiByteToWidePath CP_UTF8 (cstrMem pszCommand) env.PATH_MAX).out,
              args)] := by
  have hsn : (refMultiByteToWideChar CP_UTF8 0 (cstrMem s) (lstrlen (cstrMem s) + 1)
      (lstrlen (cstrMem s) + 1)).n ≠ 0 := by
    by_cases he : s = []
    · subst he; decide
    · exact hs he
  obtain ⟨ws, hws⟩ := refConv_success s hsn
  have hcs : convertArg env s = ⟨ws.length + 1, ws ++ [0], 0⟩ := by
    simp only [convertArg, iArgBufSize, href, hws]
  have hall : ∀ t ∈ pre ++ s :: post, (convertArg env t).n ≠ 0 := by
    intro t ht
    rcases List.mem_append.1 ht with h | h
    · have := hconv t (by simp [h])
      simpa [convertArg, iArgBufSize, href] using this
    · rcases List.mem_cons.1 h with h | h
      · rw [h, hcs]; simp
      · have := hconv t (by simp [h])
        simpa [convertArg, iArgBufSize, href] using this
  obtain ⟨p, w2, evsBefore, evsAfter, hrun, _, ht, hsp⟩ :=
    run_success_at env iMode pszCommand pre s post w hpath halloc hall
  have hseg : argEvents env pre.length s p
      = [Event.malloc (sizeofWCHAR * (lstrlen (cstrMem s) + 1)) p,
          Event.write pre.length p, Event.read pre.length, Event.read pre.length,
          Event.argConv (cstrMem s) (lstrlen (cstrMem s) + 1) p
            (lstrlen (cstrMem s) + 1) (ws.length + 1)] := by
    simp only [argEvents, href, hws]
  rw [hseg] at ht hsp
  refine ⟨window_eq s, fun t h => refConv_success t h, ws, p, w2, evsBefore, evsAfter,
    convertedArgv env (pre ++ s :: post), hws, ?_, hrun, ?_, ?_, ht, hsp⟩
  · intro he
    subst he
    have h1 : refMultiByteToWideChar CP_UTF8 0 (cstrMem []) (lstrlen (cstrMem []) + 1)
        (lstrlen (cstrMem []) + 1) = ⟨1, [0], 0⟩ := by decide
    rw [h1] at hws
    have h2 : [0] = ws ++ [0] := congrArg ConvResult.out hws
    cases ws with
    | nil => rfl
    | cons x xs =>
      have := congrArg List.length h2
      simp at this
  · simp only [convertedArgv, convertArg, iArgBufSize, href]
  · rw [convertedArgv_get, hcs]

theorem spawnvpU_terminator_converted_witness :
    (cstrMem ([] : List Nat)).take (lstrlen (cstrMem ([] : List Nat)) + 1) = ([] : List Nat).takeWhile (fun b => b != 0) ++ [0]
    ∧ (∀ t : List Nat,
        (refMultiByteToWideChar CP_UTF8 0 (cstrMem t) (lstrlen (cstrMem t) + 1)
          (lstrlen (cstrMem t) + 1)).n ≠ 0 →
        ∃ us, refMultiByteToWideChar CP_UTF8 0 (cstrMem t) (lstrlen (cstrMem t) + 1)
          (lstrlen (cstrMem t) + 1) = ⟨us.length + 1, us ++ [0], 0⟩)
    ∧ ∃ ws p w2 evsBefore evsAfter args,
        refMultiByteToWideChar CP_UTF8 0 (cstrMem ([] : List Nat)) (lstrlen (cstrMem ([] : List Nat)) + 1)
          (lstrlen (cstrMem ([] : List Nat)) + 1) = ⟨ws.length + 1, ws ++ [0], 0⟩
        ∧ (([] : List Nat) = [] → ws = [])
        ∧ _spawnvpU sampleRefEnv 1 [99] ([[97]] ++ ([] : List Nat) :: [[98]]) World.empty
          = .ok (sampleRefEnv._wspawnvp 1
              (sampleRefEnv.MultiByteToWidePath CP_UTF8 (cstrMem [99]) sampleRefEnv.PATH_MAX).out args, w2)
        ∧ args = ([[97]] ++ ([] : List Nat) :: [[98]]).map (fun t => some
              (refMultiByteToWideChar CP_UTF8 0 (cstrMem t) (lstrlen (cstrMem t) + 1)
                (lstrlen (cstrMem t) + 1)).out) ++ [none]
        ∧ args[[[97]].length]? = some (some (ws ++ [0]))
        ∧ w2.trace = World.empty.trace ++ (evsBefore
            ++ [Event.malloc (sizeofWCHAR * (lstrlen (cstrMem ([] : List Nat)) + 1)) p,
                Event.write [[97]].length p, Event.read [[97]].length, Event.read [[97]].length,
                Event.argConv (cstrMem ([] : List Nat)) (lstrlen (cstrMem ([] : List Nat)) + 1) p
                  (lstrlen (cstrMem ([] : List Nat)) + 1) (ws.length + 1)]
            ++ evsAfter)
        ∧ spawnCalls (evsBefore
            ++ [Event.malloc (sizeofWCHAR * (lstrlen (cstrMem ([] : List Nat)) + 1)) p,
                Event.write [[97]].length p, Event.read [[97]].length, Event.read [[97]].length,
                Event.argConv (cstrMem ([] : List Nat)) (lstrlen (cstrMem ([] : List Nat)) + 1) p
                  (lstrlen (cstrMem ([] : List Nat)) + 1) (ws.length + 1)]
            ++ evsAfter)
          = [(1, (sampleRefEnv.MultiByteToWidePath CP_UTF8 (cstrMem [99]) sampleRefEnv.PATH_MAX).out,
              args)] :=
  spawnvpU_terminator_converted sampleRefEnv 1 [99] [[97]] [[98]] World.empty []
    rfl (by decide) (fun _ _ => rfl) (by decide) (fun h => absurd rfl h)

/-- C10. All accesses to the converted array are in bounds. The count loop
yields `nArgs = N`; the conversion loop can only be left through its condition
with `iArg = N`; every call returns without a `Fault`, so no load or store falls
outside the array and no load reads a slot that was not stored before; when the
array is allocated it has `N + 1` pointer slots; every load has an index below
`N`; every store is either at an index below `N` or the store of the `NULL`
sentinel at index `N`, which is made whenever `_wspawnvp` is called. -/
theorem spawnvpU_array_accesses_in_bounds (env : Env) (iMode : Int) (pszCommand : List Nat)
    (argv : List (List Nat)) (w : World) :
    countArgs argv 0 = argv.length
    ∧ (∀ a slots w0 i slots2 w2,
        convertArgs env a argv 0 slots w0 = .ok (LoopExit.finished i slots2 w2) →
        i = argv.length)
    ∧ ∃ r w2 evs, _spawnvpU env iMode pszCommand argv w = .ok (r, w2)
      ∧ w2.trace = w.trace ++ evs
      ∧ ((convertPath env pszCommand).n ≠ 0 →
          ∃ p tl, evs = Event.pathConv (cstrMem pszCommand) env.PATH_MAX
              (convertPath env pszCommand).n
            :: Event.malloc ((argv.length + 1) * env.sizeofPtr) p :: tl)
      ∧ (∀ i ∈ reads evs, i < argv.length)
      ∧ (∀ ip ∈ writes evs, ip.1 < argv.length ∨ ip = (argv.length, 0))
      ∧ (spawnCalls evs ≠ [] → (argv.length, 0) ∈ writes evs) := by
  refine ⟨by simp [countArgs_eq], ?_, ?_⟩
  · intro a slots w0 i slots2 w2 h
    simpa using convertArgs_finished_index env a argv 0 slots w0 i slots2 w2 h
  rcases run_cases env pszCommand argv w with hp | ⟨hp, hm⟩
    | ⟨pre, s, post, he, hp, hm, hc, hf⟩ | ⟨pre, s, post, he, hp, hm, hc, hf⟩ | ⟨hp, hm, hc⟩
  · exact ⟨-1, _, [Event.pathConv (cstrMem pszCommand) env.PATH_MAX 0],
      run_pathFail env iMode pszCommand argv w hp, rfl, fun h => absurd hp h,
      by simp [reads], by simp [writes], fun h => absurd (by simp [spawnCalls]) h⟩
  · exact ⟨-1, _, [Event.pathConv (cstrMem pszCommand) env.PATH_MAX
        (convertPath env pszCommand).n, Event.malloc ((argv.length + 1) * env.sizeofPtr) 0],
      run_arrayAllocFail env iMode pszCommand argv w hp hm, rfl, fun _ => ⟨0, [], rfl⟩,
      by simp [reads], by simp [writes], fun h => absurd (by simp [spawnCalls]) h⟩
  · obtain ⟨a, bufs, w2, evs, hrun, _, _, ht, ⟨tl, htl⟩, hlen, _, _, _, _, hs, _, hw, hr⟩ :=
      run_argAllocFail env iMode pszCommand pre s post w hp hm hc hf
    rw [he]
    refine ⟨-1, w2, evs, hrun, ht, fun _ => ⟨a, tl, htl⟩, hr, ?_, fun h => absurd hs h⟩
    intro ip hip
    rw [hw] at hip
    rcases List.mem_append.1 hip with h | h
    · have := List.fst_lt_of_mem_enum h
      left; simp; omega
    · simp at h; left; rw [h]; simp
  · obtain ⟨a, bufs, w2, evs, hrun, _, _, ht, ⟨tl, htl⟩, hlen, _, _, _, _, hs, _, hw, hr⟩ :=
      run_argConvFail env iMode pszCommand pre s post w hp hm hc hf
    rw [he]
    refine ⟨-1, w2, evs, hrun, ht, fun _ => ⟨a, tl, htl⟩, hr, ?_, fun h => absurd hs h⟩
    intro ip hip
    rw [hw] at hip
    have := List.fst_lt_of_mem_enum hip
    left; simp; omega
  · obtain ⟨a, bufs, w2, before, after, hrun, _, _, ht, htl, hlen, _, _,
      ⟨_, _, _, _, hw, hr⟩, ⟨_, _, _, _, hw2, hr2⟩⟩ :=
      run_success env iMode pszCommand argv w hp hm hc
    refine ⟨_, w2, before ++ [Event.spawn iMode (convertPath env pszCommand).out
      (convertedArgv env argv)] ++ after, hrun, by simp [ht],
      fun _ => ⟨a, (loopEvents env 0 argv bufs ++ [Event.write argv.length 0])
        ++ [Event.spawn iMode (convertPath env pszCommand).out
        (convertedArgv env argv)] ++ after, by simp [htl]⟩, ?_, ?_, ?_⟩
    · intro i hi
      simp only [reads_append, List.mem_append] at hi
      rcases hi with (h | h) | h
      · exact hr _ h
      · simp [reads] at h
      · exact hr2 _ h
    · intro ip hip
      simp only [writes_append, List.mem_append, hw, hw2] at hip
      rcases hip with ((h | h) | h) | h
      · have := List.fst_lt_of_mem_enum h
        left; omega
      · simp at h; right; exact h
      · simp [writes] at h
      · simp at h
    · intro _
      simp only [writes_append, List.mem_append, hw]
      left; left; right; simp

end SpawnU
